import Mathlib

/-!
Shallow embedding of the deferred-call queue and software timer engine of
`src/Soft/Embedded/Core/Src/sys.c` (Thebaide/Remote_Vehicle_Monitoring).

The C file keeps all of its state in file-scope variables; we gather those
variables into one `SysState` record and translate each C function into a
pure state-transforming Lean function of the same name.  C `int` values are
modelled as `Int` with explicit 32-bit two's-complement wrap (`wrap32`) at
the points where the C code can overflow, and the single `uint32_t`
variable `sys_period` is modelled as a `Nat` together with explicit
mod-2^32 arithmetic (`usub`, `u32`).  Function pointers and context
pointers are opaque type parameters `H`/`C`; a NULL pointer is `none`.
The ESP8266 SDK collaborators are modelled by their observable effect:
`os_timer_arm`/`os_timer_disarm` toggle the `timer_armed` flag, a firing
of the armed periodic tick is the `sysTick` step, and `system_os_post`
followed by the SDK running `sys_task` is the `drain` step.  `cprintf`
diagnostics have no modelled effect beyond the `sys_full_signaled` latch
the code keeps for them.
-/

set_option maxRecDepth 10000

namespace Sys

/-- 2^32, the modulus of the C `uint32_t` arithmetic in `sys.c`. -/
def U32MOD : Nat := 4294967296

/-- Two's-complement wraparound of a C 32-bit `int` computation. -/
def wrap32 (n : Int) : Int := (n + 2147483648) % 4294967296 - 2147483648

/-- Reinterpretation of a C `int` value as `uint32_t` (conversion on
assignment or usual-arithmetic-conversion to unsigned). -/
def u32 (n : Int) : Nat := (n % 4294967296).toNat

/-- Reinterpretation of a `uint32_t` value as a C `int` (conversion on
assignment back to a signed variable). -/
def toSigned (n : Nat) : Int :=
  if n % 4294967296 < 2147483648 then (n % 4294967296 : Nat)
  else (n % 4294967296 : Int) - 4294967296

/-- `uint32_t` subtraction `a - b` (mod 2^32). -/
def usub (a b : Nat) : Nat := (a % U32MOD + (U32MOD - b % U32MOD)) % U32MOD

/-- `uint32_t` decrement by one (`sys_period -= SYS_TIMER_PERIOD` with
`SYS_TIMER_PERIOD = 1`): wraps from 0 to 2^32 - 1.  A `uint32_t` variable
always holds a value below 2^32, on which this agrees with `usub a 1`. -/
def udec1 (a : Nat) : Nat := if a = 0 then 4294967295 else a - 1

/-- The C struct `sys_event_t`: one queue entry or one timer slot.
`handler`/`ctx` are nullable pointers. -/
structure SysEvent (H C : Type) where
  handler : Option H
  ctx : Option C
  id : Int
  timeout : Int
deriving DecidableEq, Repr

/-- A `sys_event_t` with all fields zero / NULL (C static initialisation,
and what `sys_init` writes into every queue slot). -/
def zeroEvent {H C : Type} : SysEvent H C := ⟨none, none, 0, 0⟩

/-- All file-scope mutable state of `sys.c`, plus the armed/disarmed state
of the single `os_timer` the engine multiplexes. -/
@[ext]
structure SysState (H C : Type) where
  sys_events : Fin 32 → SysEvent H C
  sys_event_put : Int
  sys_event_get : Int
  sys_event_count : Int
  sys_full_signaled : Bool
  sys_shutdown_requested : Bool
  sys_timer_idle : Bool
  sys_timeouts : Fin 16 → SysEvent H C
  sys_timeout_dt : Int
  sys_timeout_count : Int
  sys_period : Nat
  timer_armed : Bool

variable {H C : Type}

/-- Index into the 32-entry queue table; the C code indexes with an `int`
that its own invariants keep in `[0, 32)`. -/
def eventIdx (i : Int) : Fin 32 :=
  ⟨(i % 32).toNat, by
    have h1 := Int.emod_nonneg i (by norm_num : (32 : Int) ≠ 0)
    have h2 := Int.emod_lt_of_pos i (by norm_num : (0 : Int) < 32)
    omega⟩

/-- Index into the 16-entry timer table (`id % SYS_NTIMEOUTS` for `id > 0`). -/
def timeoutIdx (i : Int) : Fin 16 :=
  ⟨(i % 16).toNat, by
    have h1 := Int.emod_nonneg i (by norm_num : (16 : Int) ≠ 0)
    have h2 := Int.emod_lt_of_pos i (by norm_num : (0 : Int) < 16)
    omega⟩

/-- `sys_queue_len`: number of pending queue entries, computed from the two
indices exactly as the C does. -/
def sys_queue_len (s : SysState H C) : Int :=
  let len := s.sys_event_put - s.sys_event_get
  if len ≥ 0 then len else 32 + len

/-- `sys_queue_id`: the internal enqueue step.  Rejects (returning -1 and
latching the full flag) when 31 or more entries are pending; otherwise
clears the latch, writes the entry at the write index, advances the write
index modulo 32 and returns the current `sys_event_count`. -/
def sys_queue_id (handler : H) (ctx : Option C) (id : Int) (s : SysState H C) :
    Int × SysState H C :=
  if sys_queue_len s ≥ 31 then
    (-1, { s with sys_full_signaled := true })
  else
    let p := eventIdx s.sys_event_put
    let s2 : SysState H C := { s with
      sys_full_signaled := false,
      sys_events := fun j => if j = p then ⟨some handler, ctx, id, 0⟩ else s.sys_events j }
    let put1 := s2.sys_event_put + 1
    let put2 := if put1 ≥ 32 then 0 else put1
    (s2.sys_event_count, { s2 with sys_event_put := put2 })

/-- `sys_task`: the drain step.  Copies the entry at the read index, clears
the slot's handler and ctx, advances the read index modulo 32, and invokes
the copied handler if it is non-NULL.  The performed invocation (if any) is
returned as the first component. -/
def sys_task (s : SysState H C) : Option (H × Option C × Int) × SysState H C :=
  let g := eventIdx s.sys_event_get
  let ev2 := s.sys_events g
  let s1 : SysState H C := { s with
    sys_events := fun j =>
      if j = g then { s.sys_events j with handler := none, ctx := none }
      else s.sys_events j }
  let get1 := s1.sys_event_get + 1
  let get2 := if get1 ≥ 32 then 0 else get1
  (ev2.handler.map (fun h => (h, ev2.ctx, ev2.id)), { s1 with sys_event_get := get2 })

/-- `sys_queue`: the public enqueue.  Rejects when shutdown was requested;
otherwise increments the event id counter (with the C wrap-to-zero on
signed overflow) and delegates to `sys_queue_id`. -/
def sys_queue (handler : H) (ctx : Option C) (s : SysState H C) : Int × SysState H C :=
  if s.sys_shutdown_requested then (-1, s)
  else
    let c1 := wrap32 (s.sys_event_count + 1)
    let c2 := if c1 < 0 then 0 else c1
    sys_queue_id handler ctx c2 { s with sys_event_count := c2 }

/-- `sys_timeout_update_dt`: fold one remaining time into the pending
minimum `sys_timeout_dt`. -/
def sys_timeout_update_dt (delay : Int) (s : SysState H C) : SysState H C :=
  if s.sys_timeout_dt ≤ 0 ∨ s.sys_timeout_dt > delay then
    { s with sys_timeout_dt := delay }
  else s

/-- `sys_timeout_new`: linear scan for the first free timer slot. -/
def sys_timeout_new (s : SysState H C) : Option (Fin 16) :=
  (List.finRange 16).find? (fun i => (s.sys_timeouts i).handler.isNone)

/-- `sys_timeout_trig`: stop the running tick, redistribute the time that
already elapsed (`done = sys_timeout_dt - sys_period`) over every other
slot with a positive remaining time, and re-arm for the smaller of the
remaining countdown and the new delay.  Arithmetic mixing the `int` fields
with the `uint32_t` locals follows the C conversion rules. -/
def sys_timeout_trig (delay id : Int) (s : SysState H C) : SysState H C :=
  let s1 : SysState H C :=
    if s.sys_timer_idle then
      { s with sys_timeout_dt := delay, sys_timer_idle := false }
    else
      let sd : SysState H C := { s with timer_armed := false }
      let remaining : Nat := sd.sys_period
      let done : Nat := usub (u32 sd.sys_timeout_dt) remaining
      let sc : SysState H C := { sd with
        sys_timeouts := fun i =>
          let ev := sd.sys_timeouts i
          if ev.timeout > 0 ∧ ev.id ≠ id then
            { ev with timeout := toSigned (usub (u32 ev.timeout) done) }
          else ev }
      if remaining < u32 delay then { sc with sys_timeout_dt := toSigned remaining }
      else { sc with sys_timeout_dt := delay }
  { s1 with sys_period := u32 s1.sys_timeout_dt, timer_armed := true }

/-- `sys_timeout_add`: allocate the first free slot, reject on shutdown or
exhaustion, advance the generation counter by 16 (wrapping to 0 on signed
overflow), fill the slot, and trigger the engine. -/
def sys_timeout_add (milliseconds : Int) (handler : H) (ctx : Option C)
    (s : SysState H C) : Int × SysState H C :=
  let iopt := sys_timeout_new s
  if s.sys_shutdown_requested then (-1, s)
  else
    match iopt with
    | none => (-1, s)
    | some i =>
      let c1 := wrap32 (s.sys_timeout_count + 16)
      let c2 := if c1 < 0 then 0 else c1
      let newid := c2 + (i : Int)
      let s1 : SysState H C := { s with
        sys_timeout_count := c2,
        sys_timeouts := fun j =>
          if j = i then ⟨some handler, ctx, newid, milliseconds⟩ else s.sys_timeouts j }
      (newid, sys_timeout_trig milliseconds newid s1)

/-- `sys_timeout_del`: disarm, clear the slot at `id % 16` only when `id`
is positive and matches the slot's current id, then unconditionally re-arm. -/
def sys_timeout_del (id : Int) (s : SysState H C) : SysState H C :=
  let s1 : SysState H C := { s with timer_armed := false }
  let s2 : SysState H C :=
    if id > 0 then
      let i := timeoutIdx id
      if id = (s1.sys_timeouts i).id then
        { s1 with
          sys_timeouts := fun j =>
            if j = i then { s1.sys_timeouts j with handler := none, id := 0 }
            else s1.sys_timeouts j }
      else s1
    else s1
  { s2 with timer_armed := true }

/-- One iteration of the sweep loop body of `sys_timer_callback` at slot
`i`: skip free slots; subtract the elapsed `dt` from the slot's remaining
time; on expiry push the deferred call and free the slot, otherwise fold
the new remaining time into the pending minimum. -/
def sweepSlot (dt : Int) (s : SysState H C) (i : Fin 16) : SysState H C :=
  let ev := s.sys_timeouts i
  match ev.handler with
  | none => s
  | some h =>
    let t1 := wrap32 (ev.timeout - dt)
    let s1 : SysState H C := { s with
      sys_timeouts := fun j => if j = i then { ev with timeout := t1 } else s.sys_timeouts j }
    if t1 ≤ 0 then
      let s2 := (sys_queue_id h ev.ctx ev.id s1).2
      { s2 with
        sys_timeouts := fun j =>
          if j = i then { s2.sys_timeouts j with handler := none, id := 0 }
          else s2.sys_timeouts j }
    else
      sys_timeout_update_dt t1 s1

/-- The expired branch of `sys_timer_callback`: disarm, take
`dt = sys_timeout_dt`, reset it, sweep all 16 slots in index order, and
either re-arm for the new minimum remaining time or go idle. -/
def sysSweep (s : SysState H C) : SysState H C :=
  let s1 : SysState H C := { s with timer_armed := false }
  let dt := s1.sys_timeout_dt
  let s2 : SysState H C := { s1 with sys_timeout_dt := 0 }
  let s3 := (List.finRange 16).foldl (sweepSlot dt) s2
  if s3.sys_timeout_dt > 0 then
    { s3 with sys_period := u32 s3.sys_timeout_dt, timer_armed := true }
  else
    { s3 with sys_timer_idle := true }

/-- `sys_timer_callback`: decrement the `uint32_t` countdown by the 1 ms
tick period; when it reaches 0 (the unsigned comparison `<= 0`), run the
expiry sweep `sysSweep`. -/
def sys_timer_callback (s : SysState H C) : SysState H C :=
  let p1 := udec1 s.sys_period
  let s0 : SysState H C := { s with sys_period := p1 }
  if p1 = 0 then sysSweep s0 else s0

/-- One firing opportunity of the hardware periodic tick: the callback
runs only while the timer is armed. -/
def sysTick (s : SysState H C) : SysState H C :=
  if s.timer_armed then sys_timer_callback s else s

/-- The state after C static initialisation plus `sys_init` (which clears
the queue table and indices and registers, but does not arm, the tick). -/
def initState : SysState H C :=
  { sys_events := fun _ => zeroEvent
    sys_event_put := 0
    sys_event_get := 0
    sys_event_count := 0
    sys_full_signaled := false
    sys_shutdown_requested := false
    sys_timer_idle := true
    sys_timeouts := fun _ => zeroEvent
    sys_timeout_dt := 0
    sys_timeout_count := 0
    sys_period := 0
    timer_armed := false }

/-- `sys_shutdown`: latch the rejection flag and reset the queue indices;
the `os_timer_disarm` call is commented out in the source, so the armed
tick keeps running. -/
def sys_shutdown (s : SysState H C) : SysState H C :=
  { s with sys_shutdown_requested := true, sys_event_put := 0, sys_event_get := 0 }

/-- The external operations that can reach the `sys.c` state machine. -/
inductive Op (H C : Type) where
  | enq (h : H) (c : Option C)
  | add (ms : Int) (h : H) (c : Option C)
  | del (id : Int)
  | drain
  | tick
  | shut
deriving DecidableEq, Repr

/-- Apply one operation (discarding return values). -/
def stepOp (s : SysState H C) : Op H C → SysState H C
  | .enq h c => (sys_queue h c s).2
  | .add ms h c => (sys_timeout_add ms h c s).2
  | .del id => sys_timeout_del id s
  | .drain => (sys_task s).2
  | .tick => sysTick s
  | .shut => sys_shutdown s

/-- Run a sequence of operations. -/
def runOps (s : SysState H C) : List (Op H C) → SysState H C
  | [] => s
  | op :: tr => runOps (stepOp s op) tr

/-- Run `n` tick opportunities. -/
def runTicks : Nat → SysState H C → SysState H C
  | 0, s => s
  | n + 1, s => runTicks n (sysTick s)

/-- A state is reachable when some operation sequence produces it from the
initial state. -/
def Reachable (s : SysState H C) : Prop := ∃ tr, runOps initState tr = s

/-- The pending queue entries, oldest first: the slots from the read index
to the write index. -/
def absQueue (s : SysState H C) : List (SysEvent H C) :=
  (List.range (sys_queue_len s).toNat).map
    (fun k : Nat => s.sys_events (eventIdx (s.sys_event_get + (k : Int))))

/-- The event id `sys_queue` assigns to the entry it enqueues: the
incremented sequence counter, wrapped to 0 when the signed increment
overflowed to a negative value. -/
def nextCount (s : SysState H C) : Int :=
  if wrap32 (s.sys_event_count + 1) < 0 then 0 else wrap32 (s.sys_event_count + 1)

/-- The queue entry a sweep with elapsed time `dt` pushes for one timer
slot: `none` when the slot is free or has time left, otherwise the deferred
call `sys_queue_id` writes (note the entry's `timeout` field is 0). -/
def firedEntry (dt : Int) (ev : SysEvent H C) : Option (SysEvent H C) :=
  match ev.handler with
  | none => none
  | some h => if wrap32 (ev.timeout - dt) ≤ 0 then some ⟨some h, ev.ctx, ev.id, 0⟩ else none

/-- The entries a sweep with elapsed time `dt` pushes while visiting the
slots listed in `l`, in visiting order. -/
def sweepFiredL (dt : Int) (tos : Fin 16 → SysEvent H C) (l : List (Fin 16)) :
    List (SysEvent H C) :=
  l.filterMap (fun i => firedEntry dt (tos i))

/-- The entries one full expiry sweep pushes, in ascending slot-index
order (the loop of `sys_timer_callback` runs `i = 0 .. 15`). -/
def sweepFired (dt : Int) (tos : Fin 16 → SysEvent H C) : List (SysEvent H C) :=
  sweepFiredL dt tos (List.finRange 16)

/-- The entries one tick opportunity pushes: a sweep's worth when the tick
is armed and the countdown reaches zero, nothing otherwise. -/
def tickFired (s : SysState H C) : List (SysEvent H C) :=
  if s.timer_armed = true ∧ udec1 s.sys_period = 0 then
    sweepFired s.sys_timeout_dt s.sys_timeouts
  else []

/-- The entries `n` consecutive tick opportunities push, in order. -/
def ticksFired (s : SysState H C) : Nat → List (SysEvent H C)
  | 0 => []
  | n + 1 => tickFired s ++ ticksFired (sysTick s) n

/-- What one pass of the sweep loop leaves in the slot it visits: free
slots stay, expired slots are freed (handler NULL, id 0), live slots get
their remaining time decremented by the elapsed `dt`. -/
def sweptSlot (dt : Int) (ev : SysEvent H C) : SysEvent H C :=
  match ev.handler with
  | none => ev
  | some _ =>
    if wrap32 (ev.timeout - dt) ≤ 0 then ⟨none, ev.ctx, 0, wrap32 (ev.timeout - dt)⟩
    else { ev with timeout := wrap32 (ev.timeout - dt) }

/-- How one pass of the sweep loop folds a slot into the pending minimum
`sys_timeout_dt` accumulator. -/
def dtStep (dtv acc : Int) (ev : SysEvent H C) : Int :=
  match ev.handler with
  | none => acc
  | some _ =>
    if wrap32 (ev.timeout - dtv) ≤ 0 then acc
    else if acc ≤ 0 ∨ acc > wrap32 (ev.timeout - dtv) then wrap32 (ev.timeout - dtv) else acc

/-- The value of `sys_timeout_dt` after the sweep loop visits the slots in
`l` starting from accumulator `acc`. -/
def dtFold (dtv : Int) (tos : Fin 16 → SysEvent H C) (l : List (Fin 16)) (acc : Int) : Int :=
  l.foldl (fun a i => dtStep dtv a (tos i)) acc

/-- The entries an operation pushes into the call queue (assuming it is
accepted): a `sys_queue` call pushes one entry carrying the next sequence
id, a tick pushes the expiry sweep's entries, nothing else pushes. -/
def opEnqLog (s : SysState H C) : Op H C → List (SysEvent H C)
  | .enq h c => [⟨some h, c, nextCount s, 0⟩]
  | .tick => tickFired s
  | _ => []

/-- The entry an operation drains from the call queue: `sys_task` takes
the entry at the read index, nothing else drains. -/
def opDrainLog (s : SysState H C) : Op H C → List (SysEvent H C)
  | .drain => [s.sys_events (eventIdx s.sys_event_get)]
  | _ => []

/-- All entries a run of operations pushes, in push order. -/
def enqLog (s : SysState H C) : List (Op H C) → List (SysEvent H C)
  | [] => []
  | op :: tr => opEnqLog s op ++ enqLog (stepOp s op) tr

/-- All entries a run of operations drains, in drain order. -/
def drainLog (s : SysState H C) : List (Op H C) → List (SysEvent H C)
  | [] => []
  | op :: tr => opDrainLog s op ++ drainLog (stepOp s op) tr

/-- Validity of one operation for the FIFO statement: enqueues happen
before shutdown with room in the queue, drains happen only when an entry
is pending (the SDK posts one `sys_task` run per accepted post), ticks
have room for every expiring timer, and `shutdown` (which discards the
pending queue by resetting both indices) is excluded. -/
def opOk (s : SysState H C) : Op H C → Bool
  | .enq _ _ => !s.sys_shutdown_requested && decide (sys_queue_len s < 31)
  | .drain => decide (0 < sys_queue_len s)
  | .tick => decide (sys_queue_len s + ((tickFired s).length : Int) ≤ 31)
  | .shut => false
  | _ => true

/-- Validity of a whole run of operations, step by step. -/
def opsOk (s : SysState H C) : List (Op H C) → Bool
  | [] => true
  | op :: tr => opOk s op && opsOk (stepOp s op) tr

/-- Sanity of the occupied timer slots: a slot with a handler holds a
remaining time in `[1, 2^30]` and a non-negative id congruent to its own
index (ids are `generation * 16 + index`). -/
def SlotsOk (s : SysState H C) : Prop :=
  ∀ j : Fin 16, (s.sys_timeouts j).handler.isSome →
    1 ≤ (s.sys_timeouts j).timeout ∧ (s.sys_timeouts j).timeout ≤ 1073741824 ∧
    0 ≤ (s.sys_timeouts j).id ∧ (s.sys_timeouts j).id % 16 = (j : Int)

/-- Sanity of a running (armed, non-idle) timer engine: the countdown
`sys_period` is between 1 and the armed interval `sys_timeout_dt`, the
interval is at most `2^30` and no larger than any occupied slot's
remaining time, and the slots are sane. -/
def ArmedInv (s : SysState H C) : Prop :=
  s.timer_armed = true ∧ s.sys_timer_idle = false ∧ SlotsOk s ∧
  1 ≤ (s.sys_period : Int) ∧ (s.sys_period : Int) ≤ s.sys_timeout_dt ∧
  s.sys_timeout_dt ≤ 1073741824 ∧
  ∀ j : Fin 16, (s.sys_timeouts j).handler.isSome →
    s.sys_timeout_dt ≤ (s.sys_timeouts j).timeout

/-- Sanity of the timer engine before an add: either idle with every slot
free and the tick disarmed, or running with `ArmedInv`; the generation
counter is a non-negative multiple of 16 no larger than `2^30`. -/
def PreInv (s : SysState H C) : Prop :=
  (0 ≤ s.sys_timeout_count ∧ s.sys_timeout_count % 16 = 0 ∧
    s.sys_timeout_count ≤ 1073741824) ∧
  (if s.sys_timer_idle = true then
    (∀ j : Fin 16, (s.sys_timeouts j).handler = none) ∧ s.timer_armed = false
   else ArmedInv s)

/-- Along an operation list, every `sys_queue` and every `sys_timeout_add`
call returns -1 and leaves the state completely unchanged. -/
def AllRejected (s : SysState H C) : List (Op H C) → Prop
  | [] => True
  | op :: tr =>
    (match op with
      | .enq hh c => sys_queue hh c s = (-1, s)
      | .add ms hh c => sys_timeout_add ms hh c s = (-1, s)
      | _ => True) ∧ AllRejected (stepOp s op) tr

/-- Both queue indices lie in `[0, 32)`. -/
def QRange (s : SysState H C) : Prop :=
  0 ≤ s.sys_event_put ∧ s.sys_event_put < 32 ∧
  0 ≤ s.sys_event_get ∧ s.sys_event_get < 32

/-- No live trace of timer id `id0` anywhere: no occupied timer slot and no
occupied queue entry carries it. -/
def NoId (s : SysState H C) (id0 : Int) : Prop :=
  (∀ j : Fin 16, (s.sys_timeouts j).handler.isSome → (s.sys_timeouts j).id ≠ id0) ∧
  (∀ q : Fin 32, (s.sys_events q).handler.isSome → (s.sys_events q).id ≠ id0)

/-- The rest state after one or more rounds of "add a 1 ms timer
(handler 7), delete it, let one tick elapse": the engine is idle again and
everything is back at rest except the inert residue in slot 0 and the
generation counter, which holds `t`. -/
def roundIdle (t : Int) : SysState Nat Nat :=
  { sys_events := fun _ => zeroEvent
    sys_event_put := 0
    sys_event_get := 0
    sys_event_count := 0
    sys_full_signaled := false
    sys_shutdown_requested := false
    sys_timer_idle := true
    sys_timeouts := fun j => if j = 0 then ⟨none, none, 0, 1⟩ else zeroEvent
    sys_timeout_dt := 0
    sys_timeout_count := t
    sys_period := 0
    timer_armed := false }

/-- Intermediate state of a round: just after the `sys_timeout_add`. -/
def addIdleState (t : Int) : SysState Nat Nat :=
  { roundIdle (t + 16) with
    sys_timer_idle := false
    sys_timeouts := fun j => if j = 0 then ⟨some 7, none, t + 16, 1⟩ else zeroEvent
    sys_timeout_dt := 1
    sys_period := 1
    timer_armed := true }

/-- Intermediate state of a round: just after the `sys_timeout_del`. -/
def delIdleState (t : Int) : SysState Nat Nat :=
  { addIdleState t with
    sys_timeouts := fun j => if j = 0 then ⟨none, none, 0, 1⟩ else zeroEvent }

/-- Two states equal in every field except possibly `sys_timeout_count`. -/
def EC (s1 s2 : SysState H C) : Prop :=
  s1.sys_events = s2.sys_events ∧ s1.sys_event_put = s2.sys_event_put ∧
  s1.sys_event_get = s2.sys_event_get ∧ s1.sys_event_count = s2.sys_event_count ∧
  s1.sys_full_signaled = s2.sys_full_signaled ∧
  s1.sys_shutdown_requested = s2.sys_shutdown_requested ∧
  s1.sys_timer_idle = s2.sys_timer_idle ∧ s1.sys_timeouts = s2.sys_timeouts ∧
  s1.sys_timeout_dt = s2.sys_timeout_dt ∧ s1.sys_period = s2.sys_period ∧
  s1.timer_armed = s2.timer_armed

/-! ### Generic helper lemmas -/

/-- Running tick opportunities composes additively. -/
theorem runTicks_add (a b : Nat) (s : SysState H C) :
    runTicks (a + b) s = runTicks b (runTicks a s) := by
  induction a generalizing s with
  | zero => rw [Nat.zero_add]; rfl
  | succ a ih =>
    have h : a + 1 + b = (a + b) + 1 := by omega
    rw [h]
    show runTicks (a + b) (sysTick s) = _
    rw [ih (sysTick s)]
    rfl

/-- Running operation lists composes by concatenation. -/
theorem runOps_append (t1 t2 : List (Op H C)) (s : SysState H C) :
    runOps s (t1 ++ t2) = runOps (runOps s t1) t2 := by
  induction t1 generalizing s with
  | nil => rfl
  | cons op tr ih => simpa [runOps] using ih (stepOp s op)

theorem wrap32_eq_self {n : Int} (h1 : -2147483648 ≤ n) (h2 : n < 2147483648) :
    wrap32 n = n := by
  unfold wrap32; omega

theorem toSigned_eq_self {n : Nat} (h : n < 2147483648) : toSigned n = n := by
  unfold toSigned
  rw [Nat.mod_eq_of_lt (by omega)]
  simp [h]

theorem u32_eq_toNat {n : Int} (h1 : 0 ≤ n) (h2 : n < 4294967296) :
    u32 n = n.toNat := by
  unfold u32
  rw [Int.emod_eq_of_lt h1 h2]

theorem usub_eq_sub {a b : Nat} (hb : b ≤ a) (ha : a < 4294967296) :
    usub a b = a - b := by
  unfold usub U32MOD
  rw [Nat.mod_eq_of_lt ha, Nat.mod_eq_of_lt (show b < 4294967296 by omega)]
  have h : a + (4294967296 - b) = (a - b) + 4294967296 := by omega
  rw [h, Nat.add_mod_right, Nat.mod_eq_of_lt (show a - b < 4294967296 by omega)]

/-! ### C1 -/

/-- C1: elapsed-time correction on add.  From the idle engine, add timer A
(handler 1, delay 100 ms, id 16); after 40 ticks add timer B (handler 2,
delay 30 ms, id 33).  B's deferred call is enqueued exactly 30 ticks after
the second add (absolute +70 ms: absent after 29 further ticks, present
after 30), and A's exactly 60 ticks after it (absolute +100 ms, not
+110 ms: absent after 59, present after 60, behind B in the queue),
because `sys_timeout_trig` subtracts the already-elapsed time
`sys_timeout_dt - sys_period` from every other active slot and re-arms for
the minimum of the running countdown and the new delay. -/
theorem C1_elapsed_correction_scenario :
    absQueue (runTicks 29 ((sys_timeout_add 30 2 none (runTicks 40
        ((sys_timeout_add 100 1 none (initState (H := Nat) (C := Nat))).2))).2)) = [] ∧
    absQueue (runTicks 30 ((sys_timeout_add 30 2 none (runTicks 40
        ((sys_timeout_add 100 1 none (initState (H := Nat) (C := Nat))).2))).2)) =
      [⟨some 2, none, 33, 0⟩] ∧
    absQueue (runTicks 59 ((sys_timeout_add 30 2 none (runTicks 40
        ((sys_timeout_add 100 1 none (initState (H := Nat) (C := Nat))).2))).2)) =
      [⟨some 2, none, 33, 0⟩] ∧
    absQueue (runTicks 60 ((sys_timeout_add 30 2 none (runTicks 40
        ((sys_timeout_add 100 1 none (initState (H := Nat) (C := Nat))).2))).2)) =
      [⟨some 2, none, 33, 0⟩, ⟨some 1, none, 16, 0⟩] :=
  ⟨rfl, rfl, rfl, rfl⟩

/-! ### C10 -/

/-- C10: draining an empty queue still consumes a slot.  When `sys_task`
runs with the read index equal to the write index (so the slot's handler
is NULL), it invokes no handler, still clears the slot and advances the
read index modulo 32, and the computed pending length jumps from 0 to 31. -/
theorem C10_empty_drain_consumes_slot (s : SysState H C)
    (hpg : s.sys_event_get = s.sys_event_put)
    (h0 : 0 ≤ s.sys_event_get) (h32 : s.sys_event_get < 32)
    (hnull : (s.sys_events (eventIdx s.sys_event_get)).handler = none) :
    (sys_task s).1 = none ∧
    sys_queue_len s = 0 ∧
    (sys_task s).2.sys_event_get =
      (if s.sys_event_get + 1 ≥ 32 then 0 else s.sys_event_get + 1) ∧
    (sys_task s).2.sys_event_put = s.sys_event_put ∧
    sys_queue_len (sys_task s).2 = 31 ∧
    ((sys_task s).2.sys_events (eventIdx s.sys_event_get)).handler = none := by
  refine ⟨?_, ?_, ?_, ?_, ?_, ?_⟩
  · simp [sys_task, hnull]
  · simp [sys_queue_len, hpg]
  · simp [sys_task]
  · simp [sys_task]
  · simp only [sys_task, sys_queue_len]
    rw [← hpg]
    split_ifs <;> omega
  · simp [sys_task]

/-- Witness for C10 at the initial state. -/
theorem C10_witness :
    (sys_task (initState (H := Nat) (C := Nat))).1 = none ∧
    sys_queue_len (sys_task (initState (H := Nat) (C := Nat))).2 = 31 :=
  ⟨(C10_empty_drain_consumes_slot initState rfl (by decide) (by decide) rfl).1,
   (C10_empty_drain_consumes_slot initState rfl (by decide) (by decide)
      rfl).2.2.2.2.1⟩

/-! ### C7 -/

/-- C7: stale-id deletion is a no-op.  For any `id` that is non-positive
or does not match the id of the slot at index `id % 16`, `sys_timeout_del`
changes nothing except re-arming the tick (every timer slot and all queue
state are left exactly as they were); and `sys_timeout_del` is idempotent
for every id, stale or not. -/
theorem C7_stale_del_noop (s : SysState H C) (id : Int)
    (hstale : id ≤ 0 ∨ id ≠ (s.sys_timeouts (timeoutIdx id)).id) :
    sys_timeout_del id s = { s with timer_armed := true } ∧
    (∀ (s2 : SysState H C) (j : Int),
      sys_timeout_del j (sys_timeout_del j s2) = sys_timeout_del j s2) := by
  constructor
  · simp only [sys_timeout_del]
    rcases hstale with hle | hne
    · rw [if_neg (show ¬ id > 0 by omega)]
    · by_cases hpos : id > 0
      · rw [if_pos hpos, if_neg hne]
      · rw [if_neg hpos]
  · intro s2 j
    simp only [sys_timeout_del]
    by_cases hpos : j > 0
    · rw [if_pos hpos, if_pos hpos]
      by_cases hm : j = (s2.sys_timeouts (timeoutIdx j)).id
      · rw [if_pos hm]
        rw [if_neg (show ¬ j =
          ((fun j2 => if j2 = timeoutIdx j then
              { s2.sys_timeouts j2 with handler := none, id := 0 }
            else s2.sys_timeouts j2) (timeoutIdx j)).id by simp; omega)]
      · rw [if_neg hm, if_neg hm]
    · rw [if_neg hpos, if_neg hpos]

/-- Witness for C7: deleting the non-positive id -5 on the initial state
only re-arms the tick. -/
theorem C7_witness :
    sys_timeout_del (-5) (initState (H := Nat) (C := Nat)) =
      { initState (H := Nat) (C := Nat) with timer_armed := true } :=
  (C7_stale_del_noop initState (-5) (Or.inl (by norm_num))).1

/-! ### C8 -/

theorem sweepSlot_shutdown (dt : Int) (s : SysState H C) (i : Fin 16) :
    (sweepSlot dt s i).sys_shutdown_requested = s.sys_shutdown_requested := by
  cases h : (s.sys_timeouts i).handler with
  | none => simp only [sweepSlot, h]
  | some hh =>
    simp only [sweepSlot, h, sys_queue_id, sys_timeout_update_dt]
    split_ifs <;> rfl

theorem foldl_sweepSlot_shutdown (dt : Int) (l : List (Fin 16)) (s : SysState H C) :
    (l.foldl (sweepSlot dt) s).sys_shutdown_requested = s.sys_shutdown_requested := by
  induction l generalizing s with
  | nil => rfl
  | cons i l ih => rw [List.foldl_cons, ih, sweepSlot_shutdown]

theorem sysSweep_shutdown (s : SysState H C) :
    (sysSweep s).sys_shutdown_requested = s.sys_shutdown_requested := by
  simp only [sysSweep]
  split_ifs <;> simp [foldl_sweepSlot_shutdown]

theorem sys_timer_callback_shutdown (s : SysState H C) :
    (sys_timer_callback s).sys_shutdown_requested = s.sys_shutdown_requested := by
  simp only [sys_timer_callback]
  split_ifs
  · rw [sysSweep_shutdown]
  · rfl

theorem stepOp_shutdown_mono (s : SysState H C) (op : Op H C)
    (h : s.sys_shutdown_requested = true) :
    (stepOp s op).sys_shutdown_requested = true := by
  cases op with
  | enq hh c => simp [stepOp, sys_queue, h]
  | add ms hh c => simp [stepOp, sys_timeout_add, h]
  | del id =>
    simp only [stepOp, sys_timeout_del]
    split_ifs <;> exact h
  | drain => exact h
  | tick =>
    simp only [stepOp, sysTick]
    split
    · rw [sys_timer_callback_shutdown]; exact h
    · exact h
  | shut => rfl

theorem allRejected_of_shutdown (tr : List (Op H C)) :
    ∀ s : SysState H C, s.sys_shutdown_requested = true → AllRejected s tr := by
  induction tr with
  | nil => intro s _; trivial
  | cons op tr ih =>
    intro s h
    refine ⟨?_, ih _ (stepOp_shutdown_mono s op h)⟩
    cases op <;> simp [sys_queue, sys_timeout_add, h]

/-- C8: shutdown rejection.  After `sys_shutdown`, every subsequent
`sys_queue` and `sys_timeout_add` call — under any interleaving of
further operations — returns -1 and leaves the state untouched (so it
allocates no queue entry and no timer slot). -/
theorem C8_shutdown_rejects_all (s : SysState H C) (tr : List (Op H C)) :
    AllRejected (sys_shutdown s) tr :=
  allRejected_of_shutdown tr (sys_shutdown s) rfl

/-! ### C9 -/

/-- C9: the shutdown flag is checked only by `sys_queue`, not by the
internal enqueue step `sys_queue_id`: with the flag set and fewer than 31
entries pending, `sys_queue_id` still writes its entry at the write index;
`sys_shutdown` does not disarm the running tick; and concretely, a timer
armed before `sys_shutdown` still pushes its deferred call into the queue
when it expires two ticks after the shutdown. -/
theorem C9_enqueue_ignores_shutdown (s : SysState H C) (hh : H) (c : Option C) (id : Int)
    (hsd : s.sys_shutdown_requested = true) (hlen : sys_queue_len s < 31) :
    (sys_queue_id hh c id s).2.sys_events (eventIdx s.sys_event_put) =
      ⟨some hh, c, id, 0⟩ ∧
    (sys_shutdown s).timer_armed = s.timer_armed ∧
    absQueue (runTicks 2 (sys_shutdown ((sys_timeout_add 2 7 none
        (initState (H := Nat) (C := Nat))).2))) = [⟨some 7, none, 16, 0⟩] := by
  refine ⟨?_, rfl, rfl⟩
  simp only [sys_queue_id]
  rw [if_neg (by omega)]
  simp

/-- Witness for C9 on the shut-down initial state. -/
theorem C9_witness :
    ((sys_queue_id 9 none 77 (sys_shutdown (initState (H := Nat) (C := Nat)))).2).sys_events
        (eventIdx (sys_shutdown (initState (H := Nat) (C := Nat))).sys_event_put) =
      ⟨some 9, none, 77, 0⟩ :=
  (C9_enqueue_ignores_shutdown _ 9 none 77 rfl (by decide)).1

/-! ### C5 -/

/-- C5 counterexample: with 31 entries pending (a reachable state),
`sys_queue` does return -1, but it mutates queue-owned state all the same:
`sys_event_count` advances from 31 to 32 and `sys_full_signaled` latches
from `false` to `true`.  So "does not mutate any queue-owned variable" is
false as stated. -/
theorem C5_counterexample :
    sys_queue_len (runOps (initState (H := Nat) (C := Nat))
        (List.replicate 31 (Op.enq 5 none))) = 31 ∧
    (sys_queue 9 none (runOps (initState (H := Nat) (C := Nat))
        (List.replicate 31 (Op.enq 5 none)))).1 = -1 ∧
    (runOps (initState (H := Nat) (C := Nat))
        (List.replicate 31 (Op.enq 5 none))).sys_event_count = 31 ∧
    (sys_queue 9 none (runOps (initState (H := Nat) (C := Nat))
        (List.replicate 31 (Op.enq 5 none)))).2.sys_event_count = 32 ∧
    (runOps (initState (H := Nat) (C := Nat))
        (List.replicate 31 (Op.enq 5 none))).sys_full_signaled = false ∧
    (sys_queue 9 none (runOps (initState (H := Nat) (C := Nat))
        (List.replicate 31 (Op.enq 5 none)))).2.sys_full_signaled = true :=
  ⟨rfl, rfl, rfl, rfl, rfl, rfl⟩

theorem sys_queue_len_set_count (s : SysState H C) (c : Int) :
    sys_queue_len { s with sys_event_count := c } = sys_queue_len s := rfl

theorem sys_queue_id_full (hh : H) (c : Option C) (id : Int) (s : SysState H C)
    (hlen : sys_queue_len s ≥ 31) :
    sys_queue_id hh c id s = (-1, { s with sys_full_signaled := true }) := by
  simp only [sys_queue_id]
  rw [if_pos hlen]

theorem sys_queue_id_ok (hh : H) (c : Option C) (id : Int) (s : SysState H C)
    (hlen : ¬ sys_queue_len s ≥ 31) :
    sys_queue_id hh c id s = (s.sys_event_count, { s with
      sys_full_signaled := false,
      sys_events := fun j =>
        if j = eventIdx s.sys_event_put then ⟨some hh, c, id, 0⟩ else s.sys_events j,
      sys_event_put :=
        if s.sys_event_put + 1 ≥ 32 then 0 else s.sys_event_put + 1 }) := by
  simp only [sys_queue_id]
  rw [if_neg hlen]

/-- C5 amended: enqueuing with 31 entries already pending (and no shutdown)
returns -1 and does not mutate the slots, the write index, the read index,
or the timer table; it does, however, advance the sequence counter and
latch the queue-full diagnostic flag. -/
theorem C5_amended_full_enqueue_rejected (s : SysState H C) (hh : H) (c : Option C)
    (hlen : sys_queue_len s = 31) (hsd : s.sys_shutdown_requested = false) :
    (sys_queue hh c s).1 = -1 ∧
    (sys_queue hh c s).2.sys_events = s.sys_events ∧
    (sys_queue hh c s).2.sys_event_put = s.sys_event_put ∧
    (sys_queue hh c s).2.sys_event_get = s.sys_event_get ∧
    (sys_queue hh c s).2.sys_timeouts = s.sys_timeouts ∧
    (sys_queue hh c s).2.sys_full_signaled = true ∧
    (sys_queue hh c s).2.sys_event_count =
      (if wrap32 (s.sys_event_count + 1) < 0 then 0 else wrap32 (s.sys_event_count + 1)) := by
  simp only [sys_queue, hsd, Bool.false_eq_true, if_false]
  rw [sys_queue_id_full]
  · exact ⟨rfl, rfl, rfl, rfl, rfl, rfl, rfl⟩
  · exact le_of_eq hlen.symm

/-- Witness for C5 amended, at the reachable 31-pending state. -/
theorem C5_amended_witness :
    (sys_queue 9 none (runOps (initState (H := Nat) (C := Nat))
        (List.replicate 31 (Op.enq 5 none)))).1 = -1 :=
  (C5_amended_full_enqueue_rejected
    (runOps (initState (H := Nat) (C := Nat)) (List.replicate 31 (Op.enq 5 none)))
    9 none rfl rfl).1

/-! ### C4 -/

/-- C4 counterexample: the pending count does reach `capacity - 1 = 31`:
31 straight successful enqueues from the initial state are reachable and
leave `sys_queue_len` at exactly 31 (the guard in `sys_queue_id` rejects
only at 31 or more, so the 31st enqueue from an empty queue succeeds). -/
theorem C4_counterexample :
    Reachable (runOps (initState (H := Nat) (C := Nat))
        (List.replicate 31 (Op.enq 5 none))) ∧
    sys_queue_len (runOps (initState (H := Nat) (C := Nat))
        (List.replicate 31 (Op.enq 5 none))) = 31 :=
  ⟨⟨List.replicate 31 (Op.enq 5 none), rfl⟩, rfl⟩

theorem sys_queue_id_qrange (hh : H) (c : Option C) (id : Int) (s : SysState H C)
    (h : QRange s) : QRange (sys_queue_id hh c id s).2 := by
  obtain ⟨h1, h2, h3, h4⟩ := h
  by_cases hfull : sys_queue_len s ≥ 31
  · rw [sys_queue_id_full hh c id s hfull]
    exact ⟨h1, h2, h3, h4⟩
  · rw [sys_queue_id_ok hh c id s hfull]
    refine ⟨?_, ?_, h3, h4⟩ <;> dsimp only <;> split_ifs <;> omega

theorem sys_task_qrange (s : SysState H C) (h : QRange s) : QRange (sys_task s).2 := by
  obtain ⟨h1, h2, h3, h4⟩ := h
  simp only [sys_task]
  refine ⟨h1, h2, ?_, ?_⟩ <;> dsimp only <;> split_ifs <;> omega

theorem sys_queue_qrange (hh : H) (c : Option C) (s : SysState H C)
    (h : QRange s) : QRange (sys_queue hh c s).2 := by
  simp only [sys_queue]
  split_ifs
  · exact h
  · exact sys_queue_id_qrange _ _ _ _ h
  · exact sys_queue_id_qrange _ _ _ _ h

theorem sweepSlot_qrange (dt : Int) (s : SysState H C) (i : Fin 16)
    (h : QRange s) : QRange (sweepSlot dt s i) := by
  cases hh : (s.sys_timeouts i).handler with
  | none => simpa [sweepSlot, hh] using h
  | some f =>
    simp only [sweepSlot, hh]
    split_ifs with hfire
    · exact sys_queue_id_qrange f (s.sys_timeouts i).ctx (s.sys_timeouts i).id
        { s with sys_timeouts := fun j =>
            if j = i then
              ⟨some f, (s.sys_timeouts i).ctx, (s.sys_timeouts i).id,
                wrap32 ((s.sys_timeouts i).timeout - dt)⟩
            else s.sys_timeouts j } h
    · simp only [sys_timeout_update_dt]
      split_ifs <;> exact h

theorem foldl_sweepSlot_qrange (dt : Int) (l : List (Fin 16)) (s : SysState H C)
    (h : QRange s) : QRange (l.foldl (sweepSlot dt) s) := by
  induction l generalizing s with
  | nil => exact h
  | cons i l ih => exact ih _ (sweepSlot_qrange dt s i h)

theorem sysSweep_qrange (s : SysState H C) (h : QRange s) : QRange (sysSweep s) := by
  simp only [sysSweep]
  split_ifs
  · exact foldl_sweepSlot_qrange _ _ _ h
  · exact foldl_sweepSlot_qrange _ _ _ h

theorem sysTick_qrange (s : SysState H C) (h : QRange s) : QRange (sysTick s) := by
  simp only [sysTick]
  split_ifs with harm
  · simp only [sys_timer_callback]
    by_cases hp : udec1 s.sys_period = 0
    · rw [if_pos hp]
      exact sysSweep_qrange _ h
    · rw [if_neg hp]
      exact h
  · exact h

theorem sys_timeout_del_qrange (id : Int) (s : SysState H C)
    (h : QRange s) : QRange (sys_timeout_del id s) := by
  simp only [sys_timeout_del]
  split_ifs <;> exact h

theorem sys_timeout_trig_qrange (d id : Int) (s : SysState H C)
    (h : QRange s) : QRange (sys_timeout_trig d id s) := by
  simp only [sys_timeout_trig]
  split_ifs <;> exact h

theorem sys_timeout_add_qrange (ms : Int) (hh : H) (c : Option C) (s : SysState H C)
    (h : QRange s) : QRange (sys_timeout_add ms hh c s).2 := by
  simp only [sys_timeout_add]
  cases hi : sys_timeout_new s with
  | none => split_ifs <;> exact h
  | some i =>
    split_ifs <;>
      first
        | exact h
        | exact sys_timeout_trig_qrange _ _ _ h

theorem stepOp_qrange (s : SysState H C) (op : Op H C) (h : QRange s) :
    QRange (stepOp s op) := by
  cases op with
  | enq hh c => exact sys_queue_qrange hh c s h
  | add ms hh c => exact sys_timeout_add_qrange ms hh c s h
  | del id => exact sys_timeout_del_qrange id s h
  | drain => exact sys_task_qrange s h
  | tick => exact sysTick_qrange s h
  | shut =>
    exact ⟨le_refl 0, (by norm_num : (0 : Int) < 32), le_refl 0,
      (by norm_num : (0 : Int) < 32)⟩

theorem runOps_qrange (tr : List (Op H C)) (s : SysState H C) (h : QRange s) :
    QRange (runOps s tr) := by
  induction tr generalizing s with
  | nil => exact h
  | cons op tr ih => exact ih _ (stepOp_qrange s op h)

theorem reachable_qrange (s : SysState H C) (h : Reachable s) : QRange s := by
  obtain ⟨tr, rfl⟩ := h
  exact runOps_qrange tr _
    ⟨le_refl 0, (by norm_num : (0 : Int) < 32), le_refl 0, (by norm_num : (0 : Int) < 32)⟩

/-- C4 amended: in every reachable state the pending count stays between 0
and 31 = capacity - 1 inclusive; it can reach 31 (see the counterexample)
but never reaches the capacity of 32, which is what keeps `put = get`
unambiguously meaning "empty". -/
theorem C4_amended_len_bounds (s : SysState H C) (h : Reachable s) :
    0 ≤ sys_queue_len s ∧ sys_queue_len s ≤ 31 := by
  obtain ⟨h1, h2, h3, h4⟩ := reachable_qrange s h
  simp only [sys_queue_len]
  split_ifs <;> omega

/-- Witness for C4 amended at the initial state. -/
theorem C4_amended_witness :
    0 ≤ sys_queue_len (initState (H := Nat) (C := Nat)) ∧
    sys_queue_len (initState (H := Nat) (C := Nat)) ≤ 31 :=
  C4_amended_len_bounds initState ⟨[], rfl⟩

/-! ### C6 -/

theorem sys_queue_id_timeouts (hh : H) (c : Option C) (id : Int) (s : SysState H C) :
    (sys_queue_id hh c id s).2.sys_timeouts = s.sys_timeouts := by
  by_cases hl : sys_queue_len s ≥ 31
  · rw [sys_queue_id_full hh c id s hl]
  · rw [sys_queue_id_ok hh c id s hl]

theorem sys_queue_id_events (hh : H) (c : Option C) (id : Int) (s : SysState H C) :
    (sys_queue_id hh c id s).2.sys_events =
      (if sys_queue_len s ≥ 31 then s.sys_events
       else fun j =>
         if j = eventIdx s.sys_event_put then ⟨some hh, c, id, 0⟩ else s.sys_events j) := by
  by_cases hl : sys_queue_len s ≥ 31
  · rw [sys_queue_id_full hh c id s hl, if_pos hl]
  · rw [sys_queue_id_ok hh c id s hl, if_neg hl]

theorem sweepSlot_noid (dt id0 : Int) (s : SysState H C) (i : Fin 16)
    (h : NoId s id0) : NoId (sweepSlot dt s i) id0 := by
  obtain ⟨ht, hq⟩ := h
  cases hh : (s.sys_timeouts i).handler with
  | none => simpa [sweepSlot, hh] using ⟨ht, hq⟩
  | some f =>
    have hsomei : (s.sys_timeouts i).handler.isSome := by rw [hh]; rfl
    simp only [sweepSlot, hh]
    split_ifs with hfire
    · constructor
      · intro j hj
        by_cases hji : j = i
        · subst hji
          simp at hj
        · simp only [if_neg hji] at hj ⊢
          rw [sys_queue_id_timeouts] at hj ⊢
          simp only [if_neg hji] at hj ⊢
          exact ht j hj
      · intro q hq2
        rw [sys_queue_id_events] at hq2 ⊢
        split_ifs at hq2 ⊢ with hl
        · exact hq q hq2
        · by_cases hqp : q = eventIdx s.sys_event_put
          · simp only [if_pos hqp] at hq2 ⊢
            exact ht i hsomei
          · simp only [if_neg hqp] at hq2 ⊢
            exact hq q hq2
    · simp only [sys_timeout_update_dt]
      constructor
      · intro j hj
        by_cases hji : j = i
        · subst hji
          split_ifs at hj ⊢ <;> simp_all
        · split_ifs at hj ⊢ <;>
            · simp only [if_neg hji] at hj ⊢
              exact ht j hj
      · intro q hq2
        split_ifs at hq2 ⊢ <;> exact hq q hq2

theorem foldl_sweepSlot_noid (dt id0 : Int) (l : List (Fin 16)) (s : SysState H C)
    (h : NoId s id0) : NoId (l.foldl (sweepSlot dt) s) id0 := by
  induction l generalizing s with
  | nil => exact h
  | cons i l ih => exact ih _ (sweepSlot_noid dt id0 s i h)

theorem sysSweep_noid (id0 : Int) (s : SysState H C) (h : NoId s id0) :
    NoId (sysSweep s) id0 := by
  simp only [sysSweep]
  split_ifs
  · exact foldl_sweepSlot_noid _ _ _ _ h
  · exact foldl_sweepSlot_noid _ _ _ _ h

theorem sysTick_noid (id0 : Int) (s : SysState H C) (h : NoId s id0) :
    NoId (sysTick s) id0 := by
  simp only [sysTick]
  split_ifs with harm
  · simp only [sys_timer_callback]
    by_cases hp : udec1 s.sys_period = 0
    · rw [if_pos hp]
      exact sysSweep_noid id0 _ h
    · rw [if_neg hp]
      exact h
  · exact h

theorem runTicks_noid (n : Nat) (id0 : Int) (s : SysState H C) (h : NoId s id0) :
    NoId (runTicks n s) id0 := by
  induction n generalizing s with
  | zero => exact h
  | succ n ih => exact ih _ (sysTick_noid id0 s h)

theorem sys_timeout_trig_slot_frame (d id0 : Int) (s : SysState H C) (j : Fin 16) :
    ((sys_timeout_trig d id0 s).sys_timeouts j).handler = (s.sys_timeouts j).handler ∧
    ((sys_timeout_trig d id0 s).sys_timeouts j).id = (s.sys_timeouts j).id := by
  simp only [sys_timeout_trig]
  split_ifs
  · exact ⟨rfl, rfl⟩
  · dsimp only
    split_ifs <;> exact ⟨rfl, rfl⟩
  · dsimp only
    split_ifs <;> exact ⟨rfl, rfl⟩

theorem sys_timeout_trig_queue_frame (d id0 : Int) (s : SysState H C) :
    (sys_timeout_trig d id0 s).sys_events = s.sys_events ∧
    (sys_timeout_trig d id0 s).sys_event_put = s.sys_event_put ∧
    (sys_timeout_trig d id0 s).sys_event_get = s.sys_event_get ∧
    (sys_timeout_trig d id0 s).sys_event_count = s.sys_event_count := by
  simp only [sys_timeout_trig]
  split_ifs <;> exact ⟨rfl, rfl, rfl, rfl⟩

/-- C6 amended: for every id returned by a successful `sys_timeout_add`
that is *strictly positive* (i.e. the generation counter has not wrapped to
make id 0 for slot 0), calling `sys_timeout_del id` before any tick elapses
removes the timer: afterwards no timer slot and no queue entry carries the
id, and this stays true after any number of further ticks, so the handler
is never enqueued and never fires.  (The generation counter hypotheses are
invariants of the real counter: a non-negative multiple of 16 at most
2^31 - 16.) -/
theorem C6_amended_del_before_tick (s s1 : SysState H C) (d : Int) (h : H)
    (c : Option C) (id : Int)
    (hadd : sys_timeout_add d h c s = (id, s1))
    (hid : 0 < id)
    (hc2 : s.sys_timeout_count % 16 = 0)
    (hno : NoId s id) :
    NoId (sys_timeout_del id s1) id ∧
    (∀ n : Nat, NoId (runTicks n (sys_timeout_del id s1)) id) := by
  have key : NoId (sys_timeout_del id s1) id := by
    by_cases hsd : s.sys_shutdown_requested = true
    · rw [sys_timeout_add] at hadd
      simp only [hsd, if_pos] at hadd
      obtain ⟨h1, -⟩ := Prod.mk.injEq .. ▸ hadd
      omega
    · rw [Bool.not_eq_true] at hsd
      cases hfind : sys_timeout_new s with
      | none =>
        simp only [sys_timeout_add, hsd, hfind, Bool.false_eq_true, if_false] at hadd
        obtain ⟨h1, -⟩ := Prod.mk.injEq .. ▸ hadd
        omega
      | some i =>
        simp only [sys_timeout_add, hsd, hfind, Bool.false_eq_true, if_false] at hadd
        rw [Prod.mk.injEq] at hadd
        obtain ⟨hid_eq, hs1⟩ := hadd
        have hi16 : (i : Nat) < 16 := i.isLt
        set c2v : Int :=
          if wrap32 (s.sys_timeout_count + 16) < 0 then 0
          else wrap32 (s.sys_timeout_count + 16) with hc2v
        have harith : 0 ≤ c2v ∧ c2v % 16 = 0 := by
          rw [hc2v]
          unfold wrap32
          split_ifs <;> omega
        have hidx : timeoutIdx id = i := by
          apply Fin.ext
          simp only [timeoutIdx]
          omega
        have hsid : (s1.sys_timeouts i).id = id := by
          rw [← hs1]
          rw [(sys_timeout_trig_slot_frame d (c2v + (i : Int)) _ i).2]
          simp only [if_pos rfl]
          exact hid_eq
        have hsh : ∀ j : Fin 16, j ≠ i →
            (s1.sys_timeouts j).handler = (s.sys_timeouts j).handler ∧
            (s1.sys_timeouts j).id = (s.sys_timeouts j).id := by
          intro j hji
          rw [← hs1]
          refine ⟨?_, ?_⟩
          · rw [(sys_timeout_trig_slot_frame d (c2v + (i : Int)) _ j).1]
            simp only [if_neg hji]
          · rw [(sys_timeout_trig_slot_frame d (c2v + (i : Int)) _ j).2]
            simp only [if_neg hji]
        have hevs : s1.sys_events = s.sys_events := by
          rw [← hs1]
          exact (sys_timeout_trig_queue_frame d (c2v + (i : Int)) _).1
        simp only [sys_timeout_del]
        rw [if_pos hid, hidx, if_pos hsid.symm]
        constructor
        · intro j hj
          by_cases hji : j = i
          · subst hji
            simp at hj
          · simp only [if_neg hji] at hj ⊢
            rw [(hsh j hji).2]
            rw [(hsh j hji).1] at hj
            exact hno.1 j hj
        · intro q hq2
          rw [hevs] at hq2 ⊢
          exact hno.2 q hq2
  exact ⟨key, fun n => runTicks_noid n id _ key⟩

/-- Witness for C6 amended: first add on the initial state (id 16 > 0). -/
theorem C6_amended_witness :
    NoId (sys_timeout_del 16
      (sys_timeout_add 5 7 none (initState (H := Nat) (C := Nat))).2) 16 :=
  (C6_amended_del_before_tick initState
    (sys_timeout_add 5 7 none (initState (H := Nat) (C := Nat))).2 5 7 none 16
    rfl (by norm_num) (by decide)
    (by constructor <;> intro j hj <;> exact absurd hj (by simp [initState, zeroEvent]))).1

theorem runOps_round_init :
    runOps (initState (H := Nat) (C := Nat))
      [Op.add 1 7 none, Op.del 16, Op.tick] = roundIdle 16 := by
  show stepOp (stepOp (stepOp (initState (H := Nat) (C := Nat))
      (Op.add 1 7 none)) (Op.del 16)) Op.tick = roundIdle 16
  apply SysState.ext <;> first
    | rfl
    | (funext j; revert j; decide)

theorem sweepSlot_ec (dt : Int) (s1 s2 : SysState H C) (i : Fin 16) (h : EC s1 s2) :
    EC (sweepSlot dt s1 i) (sweepSlot dt s2 i) := by
  obtain ⟨hev, hput, hget, hcnt, hful, hsd, hidl, hto, hdt, hper, harm⟩ := h
  cases hh : (s1.sys_timeouts i).handler with
  | none =>
    have hh2 : (s2.sys_timeouts i).handler = none := by rw [← hto]; exact hh
    simp only [sweepSlot, hh, hh2]
    exact ⟨hev, hput, hget, hcnt, hful, hsd, hidl, hto, hdt, hper, harm⟩
  | some f =>
    have hh2 : (s2.sys_timeouts i).handler = some f := by rw [← hto]; exact hh
    simp only [sweepSlot, hh, hh2, sys_queue_id, sys_timeout_update_dt, sys_queue_len]
    simp only [← hev, ← hput, ← hget, ← hcnt, ← hful, ← hsd, ← hidl, ← hto, ← hdt,
      ← hper, ← harm]
    split_ifs <;>
      exact ⟨rfl, rfl, rfl, rfl, rfl, rfl, rfl, rfl, rfl, rfl, rfl⟩

theorem foldl_sweepSlot_ec (dt : Int) (l : List (Fin 16)) (s1 s2 : SysState H C)
    (h : EC s1 s2) : EC (l.foldl (sweepSlot dt) s1) (l.foldl (sweepSlot dt) s2) := by
  induction l generalizing s1 s2 with
  | nil => exact h
  | cons i l ih => exact ih _ _ (sweepSlot_ec dt s1 s2 i h)

theorem sysSweep_ec (s1 s2 : SysState H C) (h : EC s1 s2) :
    EC (sysSweep s1) (sysSweep s2) := by
  obtain ⟨hev, hput, hget, hcnt, hful, hsd, hidl, hto, hdt, hper, harm⟩ := h
  simp only [sysSweep]
  simp only [← hdt]
  have hfec := foldl_sweepSlot_ec s1.sys_timeout_dt (List.finRange 16)
    { s1 with timer_armed := false, sys_timeout_dt := 0 }
    { s2 with timer_armed := false, sys_timeout_dt := 0 }
    ⟨hev, hput, hget, hcnt, hful, hsd, hidl, hto, rfl, hper, rfl⟩
  obtain ⟨gev, gput, gget, gcnt, gful, gsd, gidl, gto, gdt, gper, garm⟩ := hfec
  simp only [← gdt]
  split_ifs <;>
    refine ⟨?_, ?_, ?_, ?_, ?_, ?_, ?_, ?_, ?_, ?_, ?_⟩ <;>
    (try dsimp only) <;>
    (first
      | rfl | exact gev | exact gput | exact gget | exact gcnt | exact gful
      | exact gsd | exact gidl | exact gto | exact gdt | exact gper | exact garm
      | rw [gdt])

theorem sysTick_ec (s1 s2 : SysState H C) (h : EC s1 s2) :
    EC (sysTick s1) (sysTick s2) := by
  obtain ⟨hev, hput, hget, hcnt, hful, hsd, hidl, hto, hdt, hper, harm⟩ := h
  simp only [sysTick, sys_timer_callback]
  simp only [← harm, ← hper]
  split_ifs
  · refine sysSweep_ec _ _ ⟨?_, ?_, ?_, ?_, ?_, ?_, ?_, ?_, ?_, ?_, ?_⟩ <;>
      (try dsimp only) <;>
      (first
        | rfl | exact hev | exact hput | exact hget | exact hcnt | exact hful
        | exact hsd | exact hidl | exact hto | exact hdt | exact hper | exact harm)
  · refine ⟨?_, ?_, ?_, ?_, ?_, ?_, ?_, ?_, ?_, ?_, ?_⟩ <;>
      (try dsimp only) <;>
      (first
        | rfl | exact hev | exact hput | exact hget | exact hcnt | exact hful
        | exact hsd | exact hidl | exact hto | exact hdt | exact hper | exact harm)
  · exact ⟨hev, hput, hget, hcnt, hful, hsd, hidl, hto, hdt, hper, harm⟩

theorem sweepSlot_count (dt : Int) (s : SysState H C) (i : Fin 16) :
    (sweepSlot dt s i).sys_timeout_count = s.sys_timeout_count := by
  cases hh : (s.sys_timeouts i).handler with
  | none => simp only [sweepSlot, hh]
  | some f =>
    simp only [sweepSlot, hh, sys_queue_id, sys_timeout_update_dt]
    split_ifs <;> rfl

theorem foldl_sweepSlot_count (dt : Int) (l : List (Fin 16)) (s : SysState H C) :
    (l.foldl (sweepSlot dt) s).sys_timeout_count = s.sys_timeout_count := by
  induction l generalizing s with
  | nil => rfl
  | cons i l ih => rw [List.foldl_cons, ih, sweepSlot_count]

theorem sysSweep_count (s : SysState H C) :
    (sysSweep s).sys_timeout_count = s.sys_timeout_count := by
  simp only [sysSweep]
  split_ifs <;> simp [foldl_sweepSlot_count]

theorem sysTick_count (s : SysState H C) :
    (sysTick s).sys_timeout_count = s.sys_timeout_count := by
  simp only [sysTick]
  split_ifs with harm
  · simp only [sys_timer_callback]
    by_cases hp : udec1 s.sys_period = 0
    · rw [if_pos hp, sysSweep_count]
    · rw [if_neg hp]
  · rfl

theorem runOps_round_idle (t : Int) (h16 : t % 16 = 0) (h0 : 0 ≤ t)
    (hb : t + 16 < 2147483648) :
    runOps (roundIdle t) [Op.add 1 7 none, Op.del (t + 16), Op.tick] =
      roundIdle (t + 16) := by
  have hwrap : wrap32 (t + 16) = t + 16 := wrap32_eq_self (by omega) (by omega)
  have hclamp : (if wrap32 (t + 16) < 0 then (0 : Int) else wrap32 (t + 16)) = t + 16 := by
    rw [hwrap]
    exact if_neg (by omega)
  have e1 : stepOp (roundIdle t) (Op.add 1 7 none) = addIdleState t := by
    apply SysState.ext
    case sys_timeout_count =>
      show (if wrap32 (t + 16) < 0 then (0 : Int) else wrap32 (t + 16)) =
        (addIdleState t).sys_timeout_count
      rw [hclamp]
      rfl
    case sys_timeouts =>
      have htab : (stepOp (roundIdle t) (Op.add 1 7 none)).sys_timeouts =
          (fun j : Fin 16 => if j = 0 then
            (⟨some 7, none,
              (if wrap32 (t + 16) < 0 then (0 : Int) else wrap32 (t + 16)) +
                ((0 : Fin 16) : Int), 1⟩ : SysEvent Nat Nat)
          else (roundIdle t).sys_timeouts j) := rfl
      rw [htab]
      simp only [hclamp]
      funext j
      by_cases hj : j = 0
      · subst hj
        simp [addIdleState]
      · simp [roundIdle, addIdleState, hj]
    all_goals rfl
  have hidx : timeoutIdx (t + 16) = (0 : Fin 16) := by
    apply Fin.ext
    show ((t + 16) % 16).toNat = ((0 : Fin 16) : Nat)
    rw [show ((0 : Fin 16) : Nat) = 0 from rfl]
    omega
  have e2 : stepOp (addIdleState t) (Op.del (t + 16)) = delIdleState t := by
    simp only [stepOp, sys_timeout_del]
    rw [if_pos (show t + 16 > 0 from by omega), hidx]
    rw [if_pos (show t + 16 =
      ((addIdleState t).sys_timeouts (0 : Fin 16)).id from by simp [addIdleState])]
    apply SysState.ext
    case sys_timeouts =>
      funext j
      by_cases hj : j = 0
      · subst hj
        simp [addIdleState, delIdleState]
      · simp [addIdleState, delIdleState, hj]
    all_goals rfl
  have hclosed : sysTick (delIdleState 0) = roundIdle 16 := by
    apply SysState.ext <;> first
      | rfl
      | (funext j; revert j; decide)
  have e3 : stepOp (delIdleState t) Op.tick = roundIdle (t + 16) := by
    have hec : EC (sysTick (delIdleState t)) (sysTick (delIdleState 0)) :=
      sysTick_ec _ _ ⟨rfl, rfl, rfl, rfl, rfl, rfl, rfl, rfl, rfl, rfl, rfl⟩
    rw [hclosed] at hec
    obtain ⟨gev, gput, gget, gcnt, gful, gsd, gidl, gto, gdt, gper, garm⟩ := hec
    have gcount : (sysTick (delIdleState t)).sys_timeout_count = t + 16 := by
      rw [sysTick_count]
      rfl
    show sysTick (delIdleState t) = roundIdle (t + 16)
    exact SysState.ext gev gput gget gcnt gful gsd gidl gto gdt gcount gper garm
  show stepOp (stepOp (stepOp (roundIdle t) (Op.add 1 7 none))
      (Op.del (t + 16))) Op.tick = roundIdle (t + 16)
  rw [e1, e2, e3]

theorem roundIdle_reachable :
    ∀ k : Nat, 1 ≤ k → k ≤ 134217727 → Reachable (roundIdle (16 * k)) := by
  intro k
  induction k with
  | zero => intro h1 _; omega
  | succ k ih =>
    intro _ hb
    by_cases hk : k = 0
    · subst hk
      exact ⟨[Op.add 1 7 none, Op.del 16, Op.tick], runOps_round_init⟩
    · obtain ⟨tr, htr⟩ := ih (by omega) (by omega)
      refine ⟨tr ++ [Op.add 1 7 none, Op.del (16 * k + 16), Op.tick], ?_⟩
      rw [runOps_append, htr]
      have hr := runOps_round_idle (16 * k) (by omega) (by omega) (by omega)
      rw [show ((16 : Int) * ((k + 1 : Nat) : Int)) = 16 * (k : Int) + 16 from by
        push_cast; ring]
      exact hr

/-- C6 counterexample: after 134217727 add/delete/tick rounds the
generation counter sits at 2^31 - 16 (a reachable state); the next
`sys_timeout_add` wraps the counter to 0 and returns id 0 for slot 0,
which collides with the `id > 0` guard of `sys_timeout_del`.  Deleting
id 0 immediately, before any tick, leaves the slot armed, and five ticks
later the handler is enqueued anyway — refuting "for every id successfully
returned by timer_add, timer_del(id) before any tick elapses guarantees
the handler is never enqueued and never fires". -/
theorem C6_counterexample :
    Reachable (roundIdle 2147483632) ∧
    (sys_timeout_add 5 7 none (roundIdle 2147483632)).1 = 0 ∧
    ((sys_timeout_add 5 7 none (roundIdle 2147483632)).2.sys_timeouts 0) =
      ⟨some 7, none, 0, 5⟩ ∧
    ((sys_timeout_del 0
        (sys_timeout_add 5 7 none (roundIdle 2147483632)).2).sys_timeouts 0) =
      ⟨some 7, none, 0, 5⟩ ∧
    absQueue (runTicks 5 (sys_timeout_del 0
        (sys_timeout_add 5 7 none (roundIdle 2147483632)).2)) =
      [⟨some 7, none, 0, 0⟩] :=
  ⟨roundIdle_reachable 134217727 (by norm_num) (by norm_num), rfl, rfl, rfl, rfl⟩

/-! ### C3: the call queue refines a FIFO list -/

theorem eventIdx_eq_iff (a b : Int) : eventIdx a = eventIdx b ↔ a % 32 = b % 32 := by
  simp only [eventIdx, Fin.mk.injEq]
  omega

theorem sys_queue_len_char (s : SysState H C) (hq : QRange s) :
    0 ≤ sys_queue_len s ∧ sys_queue_len s < 32 ∧
    sys_queue_len s % 32 = (s.sys_event_put - s.sys_event_get) % 32 := by
  obtain ⟨h1, h2, h3, h4⟩ := hq
  simp only [sys_queue_len]
  split_ifs <;> refine ⟨by omega, by omega, by omega⟩

theorem absQueue_congr (u v : SysState H C) (he : u.sys_events = v.sys_events)
    (hp : u.sys_event_put = v.sys_event_put) (hg : u.sys_event_get = v.sys_event_get) :
    absQueue u = absQueue v := by
  simp only [absQueue, sys_queue_len, he, hp, hg]

theorem sys_queue_len_congr (u v : SysState H C)
    (hp : u.sys_event_put = v.sys_event_put) (hg : u.sys_event_get = v.sys_event_get) :
    sys_queue_len u = sys_queue_len v := by
  simp only [sys_queue_len, hp, hg]

/-- Writing an entry at the write index and advancing the write index
modulo 32 appends the entry at the tail of the pending list. -/
theorem absQueue_shape (s s' : SysState H C) (e : SysEvent H C)
    (hev : s'.sys_events =
      fun j => if j = eventIdx s.sys_event_put then e else s.sys_events j)
    (hput : s'.sys_event_put = if s.sys_event_put + 1 ≥ 32 then 0 else s.sys_event_put + 1)
    (hget : s'.sys_event_get = s.sys_event_get)
    (hq : QRange s) (hlen : sys_queue_len s < 31) :
    absQueue s' = absQueue s ++ [e] ∧
    sys_queue_len s' = sys_queue_len s + 1 := by
  obtain ⟨h1, h2, h3, h4⟩ := hq
  obtain ⟨hL0, hL32, hLm⟩ := sys_queue_len_char s ⟨h1, h2, h3, h4⟩
  have hlen' : sys_queue_len s' = sys_queue_len s + 1 := by
    simp only [sys_queue_len, hput, hget] at *
    split_ifs at * <;> omega
  refine ⟨?_, hlen'⟩
  have htn : (sys_queue_len s').toNat = (sys_queue_len s).toNat + 1 := by omega
  have hcast : ((sys_queue_len s).toNat : Int) = sys_queue_len s := Int.toNat_of_nonneg hL0
  simp only [absQueue, htn, hget, List.range_succ, List.map_append, List.map_cons,
    List.map_nil]
  congr 1
  · refine List.map_congr_left ?_
    intro k hk
    rw [List.mem_range] at hk
    rw [hev]
    dsimp only
    rw [if_neg]
    rw [eventIdx_eq_iff]
    omega
  · rw [hev]
    dsimp only
    rw [if_pos]
    rw [eventIdx_eq_iff]
    omega

/-- A successful `sys_queue` appends one entry carrying the next sequence
id at the tail of the pending list. -/
theorem sys_queue_absQueue (hh : H) (c : Option C) (s : SysState H C)
    (hq : QRange s) (hsd : s.sys_shutdown_requested = false)
    (hlen : sys_queue_len s < 31) :
    absQueue (sys_queue hh c s).2 = absQueue s ++ [⟨some hh, c, nextCount s, 0⟩] ∧
    sys_queue_len (sys_queue hh c s).2 = sys_queue_len s + 1 := by
  simp only [sys_queue, hsd, Bool.false_eq_true, if_false]
  rw [sys_queue_id_ok]
  · have hsh := absQueue_shape ({ s with sys_event_count := nextCount s })
      ({ s with
          sys_event_count := nextCount s
          sys_full_signaled := false
          sys_events := (fun j =>
            if j = eventIdx s.sys_event_put then ⟨some hh, c, nextCount s, 0⟩
            else s.sys_events j)
          sys_event_put := (if s.sys_event_put + 1 ≥ 32 then 0 else s.sys_event_put + 1) } :
        SysState H C)
      ⟨some hh, c, nextCount s, 0⟩ rfl rfl rfl hq hlen
    exact ⟨hsh.1, hsh.2⟩
  · exact not_le.mpr hlen

/-- `sys_task` on a non-empty queue removes the head of the pending list
and returns exactly that entry's invocation. -/
theorem sys_task_absQueue (s : SysState H C) (hq : QRange s)
    (hlen : 0 < sys_queue_len s) :
    absQueue s = s.sys_events (eventIdx s.sys_event_get) :: absQueue (sys_task s).2 ∧
    sys_queue_len (sys_task s).2 = sys_queue_len s - 1 ∧
    (sys_task s).1 = (s.sys_events (eventIdx s.sys_event_get)).handler.map
      (fun h => (h, (s.sys_events (eventIdx s.sys_event_get)).ctx,
                 (s.sys_events (eventIdx s.sys_event_get)).id)) := by
  obtain ⟨h1, h2, h3, h4⟩ := hq
  obtain ⟨hL0, hL32, hLm⟩ := sys_queue_len_char s ⟨h1, h2, h3, h4⟩
  have hev' : (sys_task s).2.sys_events = fun j =>
      if j = eventIdx s.sys_event_get then
        { s.sys_events j with handler := none, ctx := none }
      else s.sys_events j := rfl
  have hget' : (sys_task s).2.sys_event_get =
      if s.sys_event_get + 1 ≥ 32 then 0 else s.sys_event_get + 1 := rfl
  have hlen' : sys_queue_len (sys_task s).2 = sys_queue_len s - 1 := by
    have hput' : (sys_task s).2.sys_event_put = s.sys_event_put := rfl
    simp only [sys_queue_len, hput', hget'] at *
    split_ifs at * <;> omega
  refine ⟨?_, hlen', rfl⟩
  have htn : (sys_queue_len s).toNat = (sys_queue_len (sys_task s).2).toNat + 1 := by
    omega
  have hg' : 0 ≤ (sys_task s).2.sys_event_get ∧ (sys_task s).2.sys_event_get < 32 ∧
      (sys_task s).2.sys_event_get % 32 = (s.sys_event_get + 1) % 32 := by
    rw [hget']
    split_ifs <;> refine ⟨by omega, by omega, by omega⟩
  simp only [absQueue, htn, List.range_succ_eq_map, List.map_cons, List.map_map]
  congr 1
  · rw [Nat.cast_zero, add_zero]
  · refine List.map_congr_left ?_
    intro k hk
    rw [List.mem_range] at hk
    simp only [Function.comp]
    rw [hev']
    dsimp only
    rw [if_neg]
    · congr 1
      rw [eventIdx_eq_iff]
      push_cast
      omega
    · rw [eventIdx_eq_iff]
      push_cast
      omega

/-- The internal enqueue appends the entry it is given (success case). -/
theorem sys_queue_id_absQueue (hh : H) (c : Option C) (id : Int) (s : SysState H C)
    (hq : QRange s) (hlen : sys_queue_len s < 31) :
    absQueue (sys_queue_id hh c id s).2 = absQueue s ++ [⟨some hh, c, id, 0⟩] ∧
    sys_queue_len (sys_queue_id hh c id s).2 = sys_queue_len s + 1 := by
  rw [sys_queue_id_ok hh c id s (not_le.mpr hlen)]
  exact absQueue_shape s _ ⟨some hh, c, id, 0⟩ rfl rfl rfl hq hlen

theorem sys_queue_id_dt (hh : H) (c : Option C) (id : Int) (s : SysState H C) :
    (sys_queue_id hh c id s).2.sys_timeout_dt = s.sys_timeout_dt := by
  by_cases hl : sys_queue_len s ≥ 31
  · rw [sys_queue_id_full hh c id s hl]
  · rw [sys_queue_id_ok hh c id s hl]

theorem sys_queue_id_idle (hh : H) (c : Option C) (id : Int) (s : SysState H C) :
    (sys_queue_id hh c id s).2.sys_timer_idle = s.sys_timer_idle := by
  by_cases hl : sys_queue_len s ≥ 31
  · rw [sys_queue_id_full hh c id s hl]
  · rw [sys_queue_id_ok hh c id s hl]

/-- One pass of the sweep loop leaves every other timer slot alone. -/
theorem sweepSlot_timeouts_ne (dt : Int) (s : SysState H C) (i j : Fin 16)
    (hji : j ≠ i) : (sweepSlot dt s i).sys_timeouts j = s.sys_timeouts j := by
  cases hh : (s.sys_timeouts i).handler with
  | none => simp only [sweepSlot, hh]
  | some f =>
    simp only [sweepSlot, hh]
    split_ifs with hfire
    · simp only [if_neg hji]
      rw [sys_queue_id_timeouts]
      simp only [if_neg hji]
    · simp only [sys_timeout_update_dt]
      split_ifs <;> simp only [if_neg hji]

/-- One pass of the sweep loop rewrites its own slot to `sweptSlot`. -/
theorem sweepSlot_timeouts_self (dt : Int) (s : SysState H C) (i : Fin 16) :
    (sweepSlot dt s i).sys_timeouts i = sweptSlot dt (s.sys_timeouts i) := by
  cases hh : (s.sys_timeouts i).handler with
  | none => simp only [sweepSlot, sweptSlot, hh]
  | some f =>
    simp only [sweepSlot, sweptSlot, hh]
    split_ifs with hfire
    · simp only [if_pos rfl]
      rw [sys_queue_id_timeouts]
      simp
    · simp only [sys_timeout_update_dt]
      split_ifs <;> simp

theorem sys_timeout_update_dt_dt (delay : Int) (s : SysState H C) :
    (sys_timeout_update_dt delay s).sys_timeout_dt =
      if s.sys_timeout_dt ≤ 0 ∨ s.sys_timeout_dt > delay then delay
      else s.sys_timeout_dt := by
  simp only [sys_timeout_update_dt]
  split_ifs <;> rfl

theorem sys_timeout_update_dt_idle (delay : Int) (s : SysState H C) :
    (sys_timeout_update_dt delay s).sys_timer_idle = s.sys_timer_idle := by
  simp only [sys_timeout_update_dt]
  split_ifs <;> rfl

/-- One pass of the sweep loop folds its slot into the `dt` accumulator. -/
theorem sweepSlot_dt_eq (dt : Int) (s : SysState H C) (i : Fin 16) :
    (sweepSlot dt s i).sys_timeout_dt = dtStep dt s.sys_timeout_dt (s.sys_timeouts i) := by
  cases hh : (s.sys_timeouts i).handler with
  | none => simp only [sweepSlot, dtStep, hh]
  | some f =>
    by_cases hfire : wrap32 ((s.sys_timeouts i).timeout - dt) ≤ 0
    · simp only [sweepSlot, dtStep, hh, if_pos hfire]
      show (sys_queue_id f _ _ _).2.sys_timeout_dt = _
      rw [sys_queue_id_dt]
    · simp only [sweepSlot, dtStep, hh, if_neg hfire]
      rw [sys_timeout_update_dt_dt]

/-- One pass of the sweep loop does not change the idle flag. -/
theorem sweepSlot_idle_eq (dt : Int) (s : SysState H C) (i : Fin 16) :
    (sweepSlot dt s i).sys_timer_idle = s.sys_timer_idle := by
  cases hh : (s.sys_timeouts i).handler with
  | none => simp only [sweepSlot, hh]
  | some f =>
    by_cases hfire : wrap32 ((s.sys_timeouts i).timeout - dt) ≤ 0
    · simp only [sweepSlot, hh, if_pos hfire]
      show (sys_queue_id f _ _ _).2.sys_timer_idle = _
      rw [sys_queue_id_idle]
    · simp only [sweepSlot, hh, if_neg hfire]
      rw [sys_timeout_update_dt_idle]

/-- One pass of the sweep loop appends exactly its slot's fired entry (if
any) at the tail of the pending list, given room for it. -/
theorem sweepSlot_absQueue (dt : Int) (s : SysState H C) (i : Fin 16)
    (hq : QRange s)
    (hspace : sys_queue_len s + ((firedEntry dt (s.sys_timeouts i)).toList.length : Int) ≤ 31) :
    absQueue (sweepSlot dt s i) = absQueue s ++ (firedEntry dt (s.sys_timeouts i)).toList ∧
    sys_queue_len (sweepSlot dt s i) =
      sys_queue_len s + ((firedEntry dt (s.sys_timeouts i)).toList.length : Int) := by
  cases hh : (s.sys_timeouts i).handler with
  | none =>
    simp only [sweepSlot, firedEntry, hh, Option.toList_none, List.append_nil,
      List.length_nil, Nat.cast_zero, add_zero]
    constructor <;> trivial
  | some f =>
    simp only [sweepSlot, firedEntry, hh] at hspace ⊢
    split_ifs at hspace ⊢ with hfire
    · simp only [Option.toList_some, List.length_cons, List.length_nil, Nat.cast_one,
        Nat.cast_ofNat, Nat.cast_zero, zero_add] at hspace ⊢
      have hlt : sys_queue_len s < 31 := by omega
      rw [sys_queue_id_ok]
      · constructor
        · refine (absQueue_shape _ _ _ ?_ ?_ ?_ hq hlt).1 <;> rfl
        · refine (absQueue_shape _ _ ⟨some f, (s.sys_timeouts i).ctx,
            (s.sys_timeouts i).id, 0⟩ ?_ ?_ ?_ hq hlt).2 <;> rfl
      · exact not_le.mpr hlt
    · simp only [Option.toList_none, List.append_nil, List.length_nil, Nat.cast_zero,
        add_zero]
      simp only [sys_timeout_update_dt]
      split_ifs <;> constructor <;> trivial

theorem sweepFiredL_congr (dt : Int) (tos1 tos2 : Fin 16 → SysEvent H C)
    (l : List (Fin 16)) (h : ∀ i ∈ l, tos1 i = tos2 i) :
    sweepFiredL dt tos1 l = sweepFiredL dt tos2 l := by
  induction l with
  | nil => rfl
  | cons i l ih =>
    simp only [sweepFiredL, List.filterMap_cons] at *
    rw [h i (List.mem_cons_self i l), ih (fun j hj => h j (List.mem_cons_of_mem i hj))]

/-- The sweep loop over a duplicate-free slot list appends that list's
fired entries, in visiting order, given room for all of them. -/
theorem foldl_sweepSlot_absQueue (dt : Int) (l : List (Fin 16)) (s : SysState H C)
    (hnd : l.Nodup) (hq : QRange s)
    (hspace : sys_queue_len s + ((sweepFiredL dt s.sys_timeouts l).length : Int) ≤ 31) :
    absQueue (l.foldl (sweepSlot dt) s) = absQueue s ++ sweepFiredL dt s.sys_timeouts l ∧
    sys_queue_len (l.foldl (sweepSlot dt) s) =
      sys_queue_len s + ((sweepFiredL dt s.sys_timeouts l).length : Int) := by
  induction l generalizing s with
  | nil =>
    simp only [List.foldl_nil, sweepFiredL, List.filterMap_nil, List.append_nil,
      List.length_nil, Nat.cast_zero, add_zero]
    constructor <;> trivial
  | cons i l ih =>
    rw [List.nodup_cons] at hnd
    have hfl : sweepFiredL dt s.sys_timeouts (i :: l) =
        (firedEntry dt (s.sys_timeouts i)).toList ++ sweepFiredL dt s.sys_timeouts l := by
      simp only [sweepFiredL, List.filterMap_cons]
      cases firedEntry dt (s.sys_timeouts i) <;> simp
    have hframe : ∀ j ∈ l, (sweepSlot dt s i).sys_timeouts j = s.sys_timeouts j :=
      fun j hj => sweepSlot_timeouts_ne dt s i j (fun e => hnd.1 (e ▸ hj))
    have hfl2 : sweepFiredL dt (sweepSlot dt s i).sys_timeouts l =
        sweepFiredL dt s.sys_timeouts l :=
      sweepFiredL_congr dt _ _ l hframe
    rw [hfl] at hspace
    rw [List.length_append] at hspace
    push_cast at hspace
    obtain ⟨ha1, hl1⟩ := sweepSlot_absQueue dt s i hq (by omega)
    obtain ⟨ha2, hl2⟩ := ih (sweepSlot dt s i) hnd.2 (sweepSlot_qrange dt s i hq)
      (by rw [hfl2, hl1]; omega)
    constructor
    · rw [List.foldl_cons, ha2, hfl2, ha1, hfl, List.append_assoc]
    · rw [List.foldl_cons, hl2, hfl2, hl1, hfl, List.length_append]
      push_cast
      ring
/-- A full expiry sweep appends the fired entries in ascending slot-index
order, given room for all of them. -/
theorem sysSweep_absQueue (s : SysState H C) (hq : QRange s)
    (hspace : sys_queue_len s + ((sweepFired s.sys_timeout_dt s.sys_timeouts).length : Int) ≤ 31) :
    absQueue (sysSweep s) = absQueue s ++ sweepFired s.sys_timeout_dt s.sys_timeouts ∧
    sys_queue_len (sysSweep s) =
      sys_queue_len s + ((sweepFired s.sys_timeout_dt s.sys_timeouts).length : Int) := by
  have h := foldl_sweepSlot_absQueue s.sys_timeout_dt (List.finRange 16)
    ({ s with timer_armed := false, sys_timeout_dt := 0 }) (List.nodup_finRange 16) hq hspace
  simp only [sysSweep]
  split_ifs with hdt
  · exact ⟨(absQueue_congr _ _ rfl rfl rfl).trans h.1,
      (sys_queue_len_congr _ _ rfl rfl).trans h.2⟩
  · exact ⟨(absQueue_congr _ _ rfl rfl rfl).trans h.1,
      (sys_queue_len_congr _ _ rfl rfl).trans h.2⟩

/-- One tick opportunity appends exactly `tickFired`, given room. -/
theorem sysTick_absQueue (s : SysState H C) (hq : QRange s)
    (hspace : sys_queue_len s + ((tickFired s).length : Int) ≤ 31) :
    absQueue (sysTick s) = absQueue s ++ tickFired s ∧
    sys_queue_len (sysTick s) = sys_queue_len s + ((tickFired s).length : Int) := by
  by_cases harm : s.timer_armed = true
  · by_cases hp : udec1 s.sys_period = 0
    · have htf : tickFired s = sweepFired s.sys_timeout_dt s.sys_timeouts := by
        simp only [tickFired, if_pos (And.intro harm hp)]
      rw [htf] at hspace ⊢
      simp only [sysTick]
      rw [if_pos harm]
      simp only [sys_timer_callback]
      rw [if_pos hp]
      have h := sysSweep_absQueue ({ s with sys_period := udec1 s.sys_period }) hq hspace
      exact ⟨h.1, h.2⟩
    · have htf : tickFired s = [] := by
        simp only [tickFired]
        rw [if_neg]
        intro hand
        exact hp hand.2
      rw [htf]
      simp only [sysTick]
      rw [if_pos harm]
      simp only [sys_timer_callback]
      rw [if_neg hp]
      simp only [List.append_nil, List.length_nil, Nat.cast_zero, add_zero]
      constructor <;> trivial
  · have htf : tickFired s = [] := by
      simp only [tickFired]
      rw [if_neg]
      intro hand
      exact harm hand.1
    rw [htf]
    simp only [sysTick]
    rw [if_neg harm]
    simp only [List.append_nil, List.length_nil, Nat.cast_zero, add_zero]
    constructor <;> trivial

/-- Re-arming the tick in `sys_timeout_trig` never touches the call queue. -/
theorem sys_timeout_trig_absQueue (d id : Int) (s : SysState H C) :
    absQueue (sys_timeout_trig d id s) = absQueue s ∧
    sys_queue_len (sys_timeout_trig d id s) = sys_queue_len s := by
  simp only [sys_timeout_trig]
  split_ifs <;> exact ⟨rfl, rfl⟩

/-- `sys_timeout_add` never touches the call queue. -/
theorem sys_timeout_add_absQueue (ms : Int) (hh : H) (c : Option C) (s : SysState H C) :
    absQueue (sys_timeout_add ms hh c s).2 = absQueue s ∧
    sys_queue_len (sys_timeout_add ms hh c s).2 = sys_queue_len s := by
  simp only [sys_timeout_add]
  cases hi : sys_timeout_new s with
  | none => split_ifs <;> exact ⟨rfl, rfl⟩
  | some i =>
    split_ifs with hsd
    · exact ⟨rfl, rfl⟩
    all_goals exact ⟨(sys_timeout_trig_absQueue ms _ _).1.trans (by rfl),
      (sys_timeout_trig_absQueue ms _ _).2.trans (by rfl)⟩

/-- `sys_timeout_del` never touches the call queue. -/
theorem sys_timeout_del_absQueue (id : Int) (s : SysState H C) :
    absQueue (sys_timeout_del id s) = absQueue s ∧
    sys_queue_len (sys_timeout_del id s) = sys_queue_len s := by
  simp only [sys_timeout_del]
  split_ifs <;> exact ⟨rfl, rfl⟩

/-- The queue ledger balances over every valid run: what was drained,
followed by what is still pending, is exactly what was accepted for
enqueueing, in order. -/
theorem runOps_fifo (tr : List (Op H C)) (s : SysState H C)
    (hq : QRange s) (hok : opsOk s tr = true) :
    drainLog s tr ++ absQueue (runOps s tr) = absQueue s ++ enqLog s tr := by
  induction tr generalizing s with
  | nil => simp [drainLog, enqLog, runOps]
  | cons op tr ih =>
    simp only [opsOk, Bool.and_eq_true] at hok
    obtain ⟨h1, h2⟩ := hok
    have ih' := ih (stepOp s op) (stepOp_qrange s op hq) h2
    cases op with
    | enq hh c =>
      simp only [opOk, Bool.and_eq_true, Bool.not_eq_true', decide_eq_true_eq] at h1
      simp only [stepOp] at ih'
      simp only [drainLog, enqLog, runOps, stepOp, opDrainLog, opEnqLog, List.nil_append]
      rw [ih', (sys_queue_absQueue hh c s hq h1.1 h1.2).1, List.append_assoc]
    | add ms hh c =>
      simp only [stepOp] at ih'
      simp only [drainLog, enqLog, runOps, stepOp, opDrainLog, opEnqLog, List.nil_append]
      rw [ih', (sys_timeout_add_absQueue ms hh c s).1]
    | del id =>
      simp only [stepOp] at ih'
      simp only [drainLog, enqLog, runOps, stepOp, opDrainLog, opEnqLog, List.nil_append]
      rw [ih', (sys_timeout_del_absQueue id s).1]
    | drain =>
      simp only [opOk, decide_eq_true_eq] at h1
      obtain ⟨hhead, -, -⟩ := sys_task_absQueue s hq h1
      simp only [stepOp] at ih'
      simp only [drainLog, enqLog, runOps, stepOp, opDrainLog, opEnqLog, List.nil_append]
      rw [List.singleton_append, List.cons_append, ih', hhead, List.cons_append]
    | tick =>
      simp only [opOk, decide_eq_true_eq] at h1
      simp only [stepOp] at ih'
      simp only [drainLog, enqLog, runOps, stepOp, opDrainLog, opEnqLog, List.nil_append]
      rw [ih', (sysTick_absQueue s hq h1).1, List.append_assoc]
    | shut =>
      simp only [opOk] at h1
      exact (Bool.false_ne_true h1).elim

/-- C3: FIFO exactly-once draining.  Over every run of operations in which
each enqueue is accepted (no shutdown, at most 30 entries pending), each
drain takes a pending entry, and each tick has room for its expiring
timers, the drained entries followed by the still-pending entries are
exactly the accepted entries, in acceptance order — so every accepted
entry is drained exactly once and in FIFO order, and once the queue is
emptied the drain log equals the enqueue log.  Timers expiring on one
sweep appear in the enqueue log in ascending slot-index order (`enqLog`
logs a tick as `sweepFired`, a `List.finRange 16` scan). -/
theorem C3_fifo_exactly_once (tr : List (Op H C))
    (hok : opsOk (initState (H := H) (C := C)) tr = true) :
    drainLog initState tr ++ absQueue (runOps initState tr) = enqLog initState tr ∧
    (absQueue (runOps (initState (H := H) (C := C)) tr) = [] →
      drainLog initState tr = enqLog initState tr) := by
  have h := runOps_fifo tr initState
    ⟨le_refl 0, (by norm_num : (0 : Int) < 32), le_refl 0, (by norm_num : (0 : Int) < 32)⟩ hok
  have habs : absQueue (initState (H := H) (C := C)) = [] := rfl
  rw [habs, List.nil_append] at h
  refine ⟨h, fun hnil => ?_⟩
  rw [hnil, List.append_nil] at h
  exact h

/-- Witness for C3: enqueue one call, add a 1 ms timer, let it expire,
drain both entries. -/
theorem C3_fifo_witness :
    opsOk (initState (H := Nat) (C := Nat))
      [Op.enq 5 none, Op.add 1 7 none, Op.tick, Op.drain, Op.drain] = true ∧
    drainLog (initState (H := Nat) (C := Nat))
        [Op.enq 5 none, Op.add 1 7 none, Op.tick, Op.drain, Op.drain] ++
      absQueue (runOps initState
        [Op.enq 5 none, Op.add 1 7 none, Op.tick, Op.drain, Op.drain]) =
      enqLog initState
        [Op.enq 5 none, Op.add 1 7 none, Op.tick, Op.drain, Op.drain] :=
  ⟨by decide, (C3_fifo_exactly_once
    [Op.enq 5 none, Op.add 1 7 none, Op.tick, Op.drain, Op.drain] (by decide)).1⟩

/-! ### C2: bounded expiry jitter -/

theorem dtFold_congr (dtv : Int) (tos1 tos2 : Fin 16 → SysEvent H C) (l : List (Fin 16))
    (acc : Int) (h : ∀ i ∈ l, tos1 i = tos2 i) :
    dtFold dtv tos1 l acc = dtFold dtv tos2 l acc := by
  induction l generalizing acc with
  | nil => rfl
  | cons i l ih =>
    simp only [dtFold, List.foldl_cons]
    rw [h i (List.mem_cons_self i l)]
    exact ih _ (fun j hj => h j (List.mem_cons_of_mem i hj))

/-- The sweep loop rewrites exactly the slots it visits, each to
`sweptSlot` of its pre-sweep content. -/
theorem foldl_sweepSlot_table (dtv : Int) (l : List (Fin 16)) (u : SysState H C)
    (hnd : l.Nodup) (j : Fin 16) :
    (l.foldl (sweepSlot dtv) u).sys_timeouts j =
      if j ∈ l then sweptSlot dtv (u.sys_timeouts j) else u.sys_timeouts j := by
  induction l generalizing u with
  | nil => simp
  | cons i l ih =>
    rw [List.nodup_cons] at hnd
    rw [List.foldl_cons]
    by_cases hji : j = i
    · subst hji
      rw [ih (sweepSlot dtv u j) hnd.2]
      rw [if_neg (fun hmem => hnd.1 hmem), if_pos (List.mem_cons_self j l)]
      exact sweepSlot_timeouts_self dtv u j
    · rw [ih (sweepSlot dtv u i) hnd.2]
      rw [sweepSlot_timeouts_ne dtv u i j hji]
      by_cases hjl : j ∈ l
      · rw [if_pos hjl, if_pos (List.mem_cons_of_mem i hjl)]
      · rw [if_neg hjl, if_neg (by
          intro hmem
          rcases List.mem_cons.mp hmem with he | hl
          · exact hji he
          · exact hjl hl)]

/-- The sweep loop's final `sys_timeout_dt` is `dtFold` of the pre-sweep
table. -/
theorem foldl_sweepSlot_dt_eq (dtv : Int) (l : List (Fin 16)) (u : SysState H C)
    (hnd : l.Nodup) :
    (l.foldl (sweepSlot dtv) u).sys_timeout_dt =
      dtFold dtv u.sys_timeouts l u.sys_timeout_dt := by
  induction l generalizing u with
  | nil => rfl
  | cons i l ih =>
    rw [List.nodup_cons] at hnd
    rw [List.foldl_cons, ih (sweepSlot dtv u i) hnd.2]
    have hstep : dtFold dtv u.sys_timeouts (i :: l) u.sys_timeout_dt =
        dtFold dtv u.sys_timeouts l (dtStep dtv u.sys_timeout_dt (u.sys_timeouts i)) := rfl
    rw [hstep, sweepSlot_dt_eq]
    exact dtFold_congr dtv _ _ l _
      (fun j hj => sweepSlot_timeouts_ne dtv u i j (fun e => hnd.1 (e ▸ hj)))

theorem foldl_sweepSlot_idle_eq (dtv : Int) (l : List (Fin 16)) (u : SysState H C) :
    (l.foldl (sweepSlot dtv) u).sys_timer_idle = u.sys_timer_idle := by
  induction l generalizing u with
  | nil => rfl
  | cons i l ih => rw [List.foldl_cons, ih, sweepSlot_idle_eq]

/-- Properties of the `dt` accumulator fold: it stays in `[0, 2^30]`, it
never grows once positive, and it ends at most any visited live slot's
positive remaining time (and positive when one exists). -/
theorem dtFold_spec (dtv : Int) (hdtv1 : 1 ≤ dtv) (hdtv2 : dtv ≤ 1073741824)
    (tos : Fin 16 → SysEvent H C) :
    ∀ (l : List (Fin 16)) (acc : Int),
      (∀ i ∈ l, (tos i).handler.isSome →
        1 ≤ (tos i).timeout ∧ (tos i).timeout ≤ 1073741824) →
      0 ≤ acc → acc ≤ 1073741824 →
      (0 ≤ dtFold dtv tos l acc ∧ dtFold dtv tos l acc ≤ 1073741824) ∧
      (1 ≤ acc → dtFold dtv tos l acc ≤ acc ∧ 1 ≤ dtFold dtv tos l acc) ∧
      (∀ i ∈ l, (tos i).handler.isSome → 1 ≤ (tos i).timeout - dtv →
        dtFold dtv tos l acc ≤ (tos i).timeout - dtv ∧ 1 ≤ dtFold dtv tos l acc) := by
  intro l
  induction l with
  | nil =>
    intro acc hl hacc1 hacc2
    exact ⟨⟨hacc1, hacc2⟩, fun ha => ⟨le_refl _, ha⟩,
      fun i hi => absurd hi (List.not_mem_nil i)⟩
  | cons i l ih =>
    intro acc hl hacc1 hacc2
    have hstep : dtFold dtv tos (i :: l) acc =
        dtFold dtv tos l (dtStep dtv acc (tos i)) := rfl
    have hkey : (0 ≤ dtStep dtv acc (tos i) ∧ dtStep dtv acc (tos i) ≤ 1073741824) ∧
        (1 ≤ acc → dtStep dtv acc (tos i) ≤ acc ∧ 1 ≤ dtStep dtv acc (tos i)) ∧
        ((tos i).handler.isSome → 1 ≤ (tos i).timeout - dtv →
          dtStep dtv acc (tos i) ≤ (tos i).timeout - dtv ∧ 1 ≤ dtStep dtv acc (tos i)) := by
      cases hh : (tos i).handler with
      | none =>
        simp only [dtStep, hh]
        exact ⟨⟨hacc1, hacc2⟩, fun ha => ⟨le_refl _, ha⟩, fun hs => absurd hs (by simp)⟩
      | some f =>
        have ht := hl i (List.mem_cons_self i l) (by rw [hh]; rfl)
        have hw : wrap32 ((tos i).timeout - dtv) = (tos i).timeout - dtv :=
          wrap32_eq_self (by omega) (by omega)
        simp only [dtStep, hh, hw]
        split_ifs with h1 h2 <;>
          exact ⟨⟨by omega, by omega⟩, fun ha => ⟨by omega, by omega⟩,
            fun _ hd => ⟨by omega, by omega⟩⟩
    obtain ⟨⟨hb1, hb2⟩, h2, h3⟩ := hkey
    obtain ⟨ihb, ih2, ih3⟩ := ih (dtStep dtv acc (tos i))
      (fun j hj => hl j (List.mem_cons_of_mem i hj)) hb1 hb2
    rw [hstep]
    refine ⟨ihb, ?_, ?_⟩
    · intro ha
      obtain ⟨ha1, ha2⟩ := h2 ha
      obtain ⟨hc1, hc2⟩ := ih2 ha2
      exact ⟨le_trans hc1 ha1, hc2⟩
    · intro j hj hjs hjd
      rcases List.mem_cons.mp hj with he | hlmem
      · subst he
        obtain ⟨ha1, ha2⟩ := h3 hjs hjd
        obtain ⟨hc1, hc2⟩ := ih2 ha2
        exact ⟨le_trans hc1 ha1, hc2⟩
      · exact ih3 j hlmem hjs hjd

/-- What `sys_timeout_trig` computes when the engine is already running:
stop the tick, subtract the already-elapsed `done = dt - period` from every
other live slot, re-arm for the smaller of the leftover countdown and the
new delay. -/
theorem sys_timeout_trig_spec (delay id0 : Int) (s : SysState H C)
    (hidle : s.sys_timer_idle = false) :
    (sys_timeout_trig delay id0 s).timer_armed = true ∧
    (sys_timeout_trig delay id0 s).sys_timer_idle = false ∧
    (sys_timeout_trig delay id0 s).sys_timeout_dt =
      (if s.sys_period < u32 delay then toSigned s.sys_period else delay) ∧
    (sys_timeout_trig delay id0 s).sys_period =
      u32 (if s.sys_period < u32 delay then toSigned s.sys_period else delay) ∧
    ∀ j : Fin 16, (sys_timeout_trig delay id0 s).sys_timeouts j =
      (if (s.sys_timeouts j).timeout > 0 ∧ (s.sys_timeouts j).id ≠ id0 then
        { s.sys_timeouts j with
          timeout := (toSigned (usub (u32 (s.sys_timeouts j).timeout) (usub (u32 s.sys_timeout_dt) s.sys_period))) }
      else s.sys_timeouts j) := by
  simp only [sys_timeout_trig, hidle, Bool.false_eq_true, if_false]
  split_ifs with hrem
  all_goals refine ⟨?_, ?_, ?_, ?_, fun j => ?_⟩ <;> trivial

/-- What `sys_timeout_trig` computes from idle: arm for the delay. -/
theorem sys_timeout_trig_idle_spec (delay id0 : Int) (s : SysState H C)
    (hidle : s.sys_timer_idle = true) :
    sys_timeout_trig delay id0 s =
      { s with
        sys_timeout_dt := delay
        sys_timer_idle := false
        sys_period := u32 delay
        timer_armed := true } := by
  simp only [sys_timeout_trig, hidle, if_true]

/-- A successful `sys_timeout_add` of a sane delay on a sane engine leaves
a running engine whose new slot holds the request and is due in exactly
`d` ticks (remaining minus already-elapsed time equals `d`). -/
theorem sys_timeout_add_armed (s s1 : SysState H C) (d : Int) (h : H) (c : Option C)
    (id : Int) (hpre : PreInv s) (hd1 : 1 ≤ d) (hd2 : d ≤ 1073741824)
    (hadd : sys_timeout_add d h c s = (id, s1)) (hid : 0 < id) :
    ∃ k : Fin 16, ArmedInv s1 ∧
      (s1.sys_timeouts k).handler = some h ∧
      (s1.sys_timeouts k).ctx = c ∧
      (s1.sys_timeouts k).id = id ∧
      (s1.sys_timeouts k).timeout - s1.sys_timeout_dt + (s1.sys_period : Int) = d := by
  obtain ⟨⟨hc0, hc16, hc30⟩, hcase⟩ := hpre
  by_cases hsd : s.sys_shutdown_requested = true
  · rw [sys_timeout_add] at hadd
    simp only [hsd, if_pos] at hadd
    obtain ⟨h1, -⟩ := Prod.mk.injEq .. ▸ hadd
    omega
  · rw [Bool.not_eq_true] at hsd
    cases hfind : sys_timeout_new s with
    | none =>
      simp only [sys_timeout_add, hsd, Bool.false_eq_true, if_false, hfind] at hadd
      obtain ⟨h1, -⟩ := Prod.mk.injEq .. ▸ hadd
      omega
    | some i =>
      simp only [sys_timeout_add, hsd, Bool.false_eq_true, if_false, hfind] at hadd
      rw [Prod.mk.injEq] at hadd
      obtain ⟨hid_eq, hs1⟩ := hadd
      have hi16 : ((i : Nat) : Int) < 16 := by exact_mod_cast i.isLt
      have hi0 : (0 : Int) ≤ ((i : Nat) : Int) := by positivity
      have hw : wrap32 (s.sys_timeout_count + 16) = s.sys_timeout_count + 16 :=
        wrap32_eq_self (by omega) (by omega)
      rw [hw] at hid_eq hs1
      have hwneg : ¬ s.sys_timeout_count + 16 < 0 := by omega
      rw [if_neg hwneg] at hid_eq hs1
      rw [hid_eq] at hs1
      have hidlow : 16 ≤ id := by omega
      have hidmod : id % 16 = ((i : Nat) : Int) := by omega
      have hu32d : ((u32 d : Nat) : Int) = d := by unfold u32; omega
      set sA : SysState H C := { s with
        sys_shutdown_requested := false
        sys_timeout_count := s.sys_timeout_count + 16
        sys_timeouts := (fun j =>
          if j = i then (⟨some h, c, id, d⟩ : SysEvent H C) else s.sys_timeouts j) }
        with hsA
      have hsAi : sA.sys_timeouts i = ⟨some h, c, id, d⟩ := by
        rw [hsA]
        dsimp only
        rw [if_pos rfl]
      have hsAj : ∀ j : Fin 16, j ≠ i → sA.sys_timeouts j = s.sys_timeouts j := by
        intro j hj
        rw [hsA]
        dsimp only
        rw [if_neg hj]
      by_cases hidle : s.sys_timer_idle = true
      · -- engine was idle: the add arms it for exactly d
        rw [if_pos hidle] at hcase
        obtain ⟨hall, -⟩ := hcase
        rw [sys_timeout_trig_idle_spec d id sA (by rw [hsA]; exact hidle)] at hs1
        have hARM : s1.timer_armed = true := by rw [← hs1]
        have hIDL : s1.sys_timer_idle = false := by rw [← hs1]
        have hDT : s1.sys_timeout_dt = d := by rw [← hs1]
        have hPER : s1.sys_period = u32 d := by rw [← hs1]
        have hTO : ∀ j : Fin 16, s1.sys_timeouts j = sA.sys_timeouts j := by
          intro j
          rw [← hs1]
        refine ⟨i, ⟨hARM, hIDL, ?_, ?_, ?_, ?_, ?_⟩, ?_, ?_, ?_, ?_⟩
        · intro j hjs
          rw [hTO j] at hjs ⊢
          by_cases hji : j = i
          · subst hji
            rw [hsAi]
            dsimp only
            refine ⟨hd1, hd2, by omega, by rw [hidmod]⟩
          · rw [hsAj j hji] at hjs
            exact absurd hjs (by rw [hall j]; simp)
        · rw [hPER, hu32d]
          omega
        · rw [hPER, hDT, hu32d]
        · rw [hDT]
          exact hd2
        · intro j hjs
          rw [hTO j] at hjs ⊢
          by_cases hji : j = i
          · subst hji
            rw [hsAi, hDT]
          · rw [hsAj j hji] at hjs
            exact absurd hjs (by rw [hall j]; simp)
        · rw [hTO i, hsAi]
        · rw [hTO i, hsAi]
        · rw [hTO i, hsAi]
        · rw [hTO i, hsAi, hDT, hPER, hu32d]
          dsimp only
          ring
      · -- engine was running: the add redistributes the elapsed time
        rw [Bool.not_eq_true] at hidle
        rw [if_neg (by rw [hidle]; exact Bool.false_ne_true)] at hcase
        obtain ⟨-, -, hslots, hp1, hpd, hdt30, hdtmin⟩ := hcase
        have hspec := sys_timeout_trig_spec d id sA (by rw [hsA]; exact hidle)
        obtain ⟨tA, tI, tD, tP, tT⟩ := hspec
        rw [hs1] at tA tI tD tP tT
        have hsAper : sA.sys_period = s.sys_period := by rw [hsA]
        have hsAdt : sA.sys_timeout_dt = s.sys_timeout_dt := by rw [hsA]
        rw [hsAper] at tD tP
        have hDTfacts : 1 ≤ (if s.sys_period < u32 d then toSigned s.sys_period else d) ∧
            (if s.sys_period < u32 d then toSigned s.sys_period else d) ≤ 1073741824 ∧
            (if s.sys_period < u32 d then toSigned s.sys_period else d) ≤ d ∧
            (if s.sys_period < u32 d then toSigned s.sys_period else d) ≤
              (s.sys_period : Int) := by
          have hts : toSigned s.sys_period = (s.sys_period : Int) :=
            toSigned_eq_self (by omega)
          rw [hts]
          have hu : u32 d = d.toNat := u32_eq_toNat (by omega) (by omega)
          rw [hu]
          split_ifs with hcnd <;> refine ⟨by omega, by omega, by omega, by omega⟩
        obtain ⟨hF1, hF2, hF3, hF4⟩ := hDTfacts
        have hPERcast : ((u32 (if s.sys_period < u32 d then toSigned s.sys_period
            else d) : Nat) : Int) =
            (if s.sys_period < u32 d then toSigned s.sys_period else d) := by
          unfold u32
          omega
        have hdoneN : usub (u32 s.sys_timeout_dt) s.sys_period =
            s.sys_timeout_dt.toNat - s.sys_period := by
          rw [u32_eq_toNat (by omega) (by omega)]
          exact usub_eq_sub (by omega) (by omega)
        have hcorr : ∀ t : Int, 1 ≤ t → t ≤ 1073741824 → s.sys_timeout_dt ≤ t →
            toSigned (usub (u32 t) (usub (u32 s.sys_timeout_dt) s.sys_period)) =
              t - (s.sys_timeout_dt - (s.sys_period : Int)) := by
          intro t ht1 ht2 ht3
          rw [hdoneN, u32_eq_toNat (by omega) (by omega),
            usub_eq_sub (by omega) (by omega), toSigned_eq_self (by omega)]
          omega
        rw [hsAdt, hsAper] at tT
        have hTi : s1.sys_timeouts i = ⟨some h, c, id, d⟩ := by
          rw [tT i, hsAi]
          split_ifs with hcnd
          · exact absurd rfl hcnd.2
          · rfl
        have hTj : ∀ j : Fin 16, j ≠ i → s1.sys_timeouts j =
            (if (s.sys_timeouts j).timeout > 0 ∧ (s.sys_timeouts j).id ≠ id then
              { s.sys_timeouts j with
                timeout := (toSigned (usub (u32 (s.sys_timeouts j).timeout) (usub (u32 s.sys_timeout_dt) s.sys_period))) }
            else s.sys_timeouts j) := by
          intro j hj
          rw [tT j, hsAj j hj]
        have hTj2 : ∀ j : Fin 16, j ≠ i → (s.sys_timeouts j).handler.isSome →
            s1.sys_timeouts j = { s.sys_timeouts j with
              timeout := ((s.sys_timeouts j).timeout - (s.sys_timeout_dt - (s.sys_period : Int))) } := by
          intro j hj hjs
          obtain ⟨ht1, ht2, ht3, ht4⟩ := hslots j hjs
          have hne : (s.sys_timeouts j).id ≠ id := by
            intro he
            refine hj (Fin.ext ?_)
            have hji : ((j : Nat) : Int) = ((i : Nat) : Int) := by omega
            exact_mod_cast hji
          rw [hTj j hj, if_pos ⟨by omega, hne⟩, hcorr _ ht1 ht2 (hdtmin j hjs)]
        have hTjh : ∀ j : Fin 16, j ≠ i →
            (s1.sys_timeouts j).handler = (s.sys_timeouts j).handler := by
          intro j hj
          rw [hTj j hj]
          split_ifs <;> rfl
        refine ⟨i, ⟨tA, tI, ?_, ?_, ?_, ?_, ?_⟩, ?_, ?_, ?_, ?_⟩
        · intro j hjs
          by_cases hji : j = i
          · subst hji
            rw [hTi]
            dsimp only
            refine ⟨hd1, hd2, by omega, by rw [hidmod]⟩
          · by_cases harmj : (s.sys_timeouts j).handler.isSome
            · rw [hTj2 j hji harmj]
              dsimp only
              obtain ⟨ht1, ht2, ht3, ht4⟩ := hslots j harmj
              have hdm := hdtmin j harmj
              refine ⟨by omega, by omega, by omega, ht4⟩
            · rw [Option.isSome_iff_exists] at hjs
              obtain ⟨v, hv⟩ := hjs
              rw [hTjh j hji] at hv
              exact absurd (by rw [hv]; rfl) harmj
        · rw [tP, hPERcast]
          omega
        · rw [tP, tD, hPERcast]
        · rw [tD]
          exact hF2
        · intro j hjs
          rw [tD]
          by_cases hji : j = i
          · subst hji
            rw [hTi]
            exact hF3
          · by_cases harmj : (s.sys_timeouts j).handler.isSome
            · rw [hTj2 j hji harmj]
              dsimp only
              obtain ⟨ht1, ht2, ht3, ht4⟩ := hslots j harmj
              have hdm := hdtmin j harmj
              omega
            · rw [Option.isSome_iff_exists] at hjs
              obtain ⟨v, hv⟩ := hjs
              rw [hTjh j hji] at hv
              exact absurd (by rw [hv]; rfl) harmj
        · rw [hTi]
        · rw [hTi]
        · rw [hTi]
        · rw [hTi, tD, tP, hPERcast]
          dsimp only
          ring

/-- The expiry sweep, when some slot survives (positive new minimum):
re-arms, keeps the idle flag, sets `dt` and the countdown to the new
minimum, and rewrites every slot to `sweptSlot`. -/
theorem sysSweep_armed_spec (s : SysState H C)
    (hpos : 0 < dtFold s.sys_timeout_dt s.sys_timeouts (List.finRange 16) 0) :
    (sysSweep s).timer_armed = true ∧
    (sysSweep s).sys_timer_idle = s.sys_timer_idle ∧
    (sysSweep s).sys_timeout_dt =
      dtFold s.sys_timeout_dt s.sys_timeouts (List.finRange 16) 0 ∧
    (sysSweep s).sys_period =
      u32 (dtFold s.sys_timeout_dt s.sys_timeouts (List.finRange 16) 0) ∧
    ∀ j : Fin 16, (sysSweep s).sys_timeouts j =
      sweptSlot s.sys_timeout_dt (s.sys_timeouts j) := by
  have hdt : ((List.finRange 16).foldl (sweepSlot s.sys_timeout_dt)
      ({ s with timer_armed := false, sys_timeout_dt := 0 })).sys_timeout_dt =
      dtFold s.sys_timeout_dt s.sys_timeouts (List.finRange 16) 0 := by
    rw [foldl_sweepSlot_dt_eq _ _ _ (List.nodup_finRange 16)]
  have hidl : ((List.finRange 16).foldl (sweepSlot s.sys_timeout_dt)
      ({ s with timer_armed := false, sys_timeout_dt := 0 })).sys_timer_idle =
      s.sys_timer_idle := by
    rw [foldl_sweepSlot_idle_eq]
  have htab : ∀ j : Fin 16, ((List.finRange 16).foldl (sweepSlot s.sys_timeout_dt)
      ({ s with timer_armed := false, sys_timeout_dt := 0 })).sys_timeouts j =
      sweptSlot s.sys_timeout_dt (s.sys_timeouts j) := by
    intro j
    rw [foldl_sweepSlot_table _ _ _ (List.nodup_finRange 16) j,
      if_pos (List.mem_finRange j)]
  simp only [sysSweep]
  split_ifs with hdtc
  · exact ⟨rfl, hidl, hdt, congrArg u32 hdt, htab⟩
  · exact absurd (by rw [hdt]; exact hpos) hdtc

/-- The exact fire tick: on a sane running engine, a slot whose remaining
time minus the already-elapsed time equals `n` has its entry pushed for
the first time during tick `n`: over any `m` tick opportunities the entry
is among the pushed entries iff `n ≤ m`. -/
theorem fire_time (n : Nat) :
    ∀ (s : SysState H C) (k : Fin 16) (h : H) (c : Option C) (id : Int),
      ArmedInv s →
      (s.sys_timeouts k).handler = some h →
      (s.sys_timeouts k).ctx = c →
      (s.sys_timeouts k).id = id →
      (s.sys_timeouts k).timeout - s.sys_timeout_dt + (s.sys_period : Int) = (n : Int) →
      ∀ m : Nat, ((⟨some h, c, id, 0⟩ : SysEvent H C) ∈ ticksFired s m ↔ n ≤ m) := by
  induction n with
  | zero =>
    intro s k h c id hinv hh hc hid hn m
    obtain ⟨harm, hidle, hslots, hp1, hpd, hdt30, hdtmin⟩ := hinv
    have hksome : (s.sys_timeouts k).handler.isSome := by rw [hh]; rfl
    have hdtr := hdtmin k hksome
    exact absurd hn (by omega)
  | succ n ih =>
    intro s k h c id hinv hh hc hid hn m
    obtain ⟨harm, hidle, hslots, hp1, hpd, hdt30, hdtmin⟩ := hinv
    have hksome : (s.sys_timeouts k).handler.isSome := by rw [hh]; rfl
    obtain ⟨hr1, hr30, hid0, hidm⟩ := hslots k hksome
    have hdtr := hdtmin k hksome
    have hdt1 : 1 ≤ s.sys_timeout_dt := le_trans hp1 hpd
    cases m with
    | zero => exact iff_of_false (List.not_mem_nil _) (by omega)
    | succ m =>
      have hticks : ticksFired s (m + 1) = tickFired s ++ ticksFired (sysTick s) m := rfl
      rw [hticks, List.mem_append]
      rcases Nat.eq_zero_or_pos n with hn0 | hn1
      · -- the slot fires during this very tick
        subst hn0
        have hper1 : s.sys_period = 1 := by omega
        have hrdt : (s.sys_timeouts k).timeout = s.sys_timeout_dt := by omega
        have hp0 : udec1 s.sys_period = 0 := by rw [hper1]; rfl
        have hmem : (⟨some h, c, id, 0⟩ : SysEvent H C) ∈ tickFired s := by
          simp only [tickFired, if_pos (And.intro harm hp0)]
          rw [sweepFired, sweepFiredL, List.mem_filterMap]
          refine ⟨k, List.mem_finRange k, ?_⟩
          simp only [firedEntry, hh]
          rw [if_pos (by rw [hrdt]; simp [wrap32]), hc, hid]
        exact iff_of_true (Or.inl hmem) (by omega)
      · -- the slot survives this tick with one less tick to go
        have hrgt : s.sys_timeout_dt < (s.sys_timeouts k).timeout ∨
            2 ≤ (s.sys_period : Int) := by omega
        by_cases hper1 : s.sys_period = 1
        · -- a sweep runs, but this slot's time is not yet up
          have hpInt : (s.sys_period : Int) = 1 := by rw [hper1]; rfl
          have hrd : (s.sys_timeouts k).timeout - s.sys_timeout_dt = (n : Int) := by omega
          have hp0 : udec1 s.sys_period = 0 := by rw [hper1]; rfl
          have htf : tickFired s = sweepFired s.sys_timeout_dt s.sys_timeouts := by
            simp only [tickFired, if_pos (And.intro harm hp0)]
          have hnm : (⟨some h, c, id, 0⟩ : SysEvent H C) ∉ tickFired s := by
            rw [htf]
            intro hmem
            rw [sweepFired, sweepFiredL, List.mem_filterMap] at hmem
            obtain ⟨j, -, hj⟩ := hmem
            cases hhj : (s.sys_timeouts j).handler with
            | none =>
              simp only [firedEntry, hhj] at hj
              exact Option.noConfusion hj
            | some f =>
              simp only [firedEntry, hhj] at hj
              split_ifs at hj with hfj
              · rw [Option.some.injEq] at hj
                have hidj : (s.sys_timeouts j).id = id := congrArg SysEvent.id hj
                have hjsome : (s.sys_timeouts j).handler.isSome := by rw [hhj]; rfl
                obtain ⟨hjt1, hjt2, -, hjm⟩ := hslots j hjsome
                by_cases hjk : j = k
                · subst hjk
                  rw [wrap32_eq_self (by omega) (by omega)] at hfj
                  omega
                · rw [hid] at hidm
                  rw [hidj] at hjm
                  have hvj : ((j : Nat) : Int) = ((k : Nat) : Int) := by omega
                  exact hjk (Fin.ext (by exact_mod_cast hvj))
          have hstep : sysTick s = sysSweep { s with sys_period := udec1 s.sys_period } := by
            simp only [sysTick]
            rw [if_pos harm]
            simp only [sys_timer_callback]
            rw [if_pos hp0]
          obtain ⟨⟨hB0, hB30⟩, -, hB3⟩ :=
            dtFold_spec s.sys_timeout_dt hdt1 hdt30 s.sys_timeouts (List.finRange 16) 0
              (fun j _ hjs => ⟨(hslots j hjs).1, (hslots j hjs).2.1⟩) (le_refl 0) (by norm_num)
          have hkp := hB3 k (List.mem_finRange k) hksome (by omega)
          have hsp := sysSweep_armed_spec ({ s with sys_period := udec1 s.sys_period })
            (by exact lt_of_lt_of_le zero_lt_one hkp.2)
          obtain ⟨pA, pI, pD, pP, pT⟩ := hsp
          rw [← hstep] at pA pI pD pP pT
          have hIDL : (sysTick s).sys_timer_idle = false := by rw [pI]; exact hidle
          have hD : (sysTick s).sys_timeout_dt =
              dtFold s.sys_timeout_dt s.sys_timeouts (List.finRange 16) 0 := by rw [pD]
          have hP : (sysTick s).sys_period =
              u32 (dtFold s.sys_timeout_dt s.sys_timeouts (List.finRange 16) 0) := by
            rw [pP]
          have hT : ∀ j : Fin 16, (sysTick s).sys_timeouts j =
              sweptSlot s.sys_timeout_dt (s.sys_timeouts j) := by
            intro j
            rw [pT j]
          have hucast : ((u32 (dtFold s.sys_timeout_dt s.sys_timeouts
              (List.finRange 16) 0) : Nat) : Int) =
              dtFold s.sys_timeout_dt s.sys_timeouts (List.finRange 16) 0 := by
            unfold u32
            omega
          have hwk : wrap32 ((s.sys_timeouts k).timeout - s.sys_timeout_dt) =
              (s.sys_timeouts k).timeout - s.sys_timeout_dt :=
            wrap32_eq_self (by omega) (by omega)
          have hTk : (sysTick s).sys_timeouts k = { s.sys_timeouts k with
              timeout := ((s.sys_timeouts k).timeout - s.sys_timeout_dt) } := by
            rw [hT k]
            simp only [sweptSlot, hh, hwk]
            rw [if_neg (by omega)]
          have hinv' : ArmedInv (sysTick s) := by
            refine ⟨pA, hIDL, ?_, ?_, ?_, ?_, ?_⟩
            · intro j hjs
              rw [hT j] at hjs ⊢
              cases hhj : (s.sys_timeouts j).handler with
              | none =>
                simp only [sweptSlot, hhj] at hjs
                simp at hjs
              | some f =>
                have hjsome : (s.sys_timeouts j).handler.isSome := by rw [hhj]; rfl
                obtain ⟨hjt1, hjt2, hjt3, hjt4⟩ := hslots j hjsome
                have hwj : wrap32 ((s.sys_timeouts j).timeout - s.sys_timeout_dt) =
                    (s.sys_timeouts j).timeout - s.sys_timeout_dt :=
                  wrap32_eq_self (by omega) (by omega)
                simp only [sweptSlot, hhj, hwj] at hjs ⊢
                split_ifs at hjs ⊢ with hfj
                · simp at hjs
                · dsimp only
                  exact ⟨by omega, by omega, hjt3, hjt4⟩
            · rw [hP, hucast]
              omega
            · rw [hP, hD, hucast]
            · rw [hD]
              omega
            · intro j hjs
              rw [hD]
              rw [hT j] at hjs ⊢
              cases hhj : (s.sys_timeouts j).handler with
              | none =>
                simp only [sweptSlot, hhj] at hjs
                simp at hjs
              | some f =>
                have hjsome : (s.sys_timeouts j).handler.isSome := by rw [hhj]; rfl
                obtain ⟨hjt1, hjt2, hjt3, hjt4⟩ := hslots j hjsome
                have hwj : wrap32 ((s.sys_timeouts j).timeout - s.sys_timeout_dt) =
                    (s.sys_timeouts j).timeout - s.sys_timeout_dt :=
                  wrap32_eq_self (by omega) (by omega)
                simp only [sweptSlot, hhj, hwj] at hjs ⊢
                split_ifs at hjs ⊢ with hfj
                · simp at hjs
                · dsimp only
                  exact (hB3 j (List.mem_finRange j) hjsome (by omega)).1
          have hfi' : ((sysTick s).sys_timeouts k).timeout - (sysTick s).sys_timeout_dt +
              ((sysTick s).sys_period : Int) = (n : Int) := by
            rw [hTk, hD, hP, hucast]
            dsimp only
            omega
          have hnext := ih (sysTick s) k h c id hinv' (by rw [hTk]; exact hh)
            (by rw [hTk]; exact hc) (by rw [hTk]; exact hid) hfi' m
          exact Iff.trans (or_iff_right hnm) (Iff.trans hnext (by omega))
        · -- no sweep: the countdown just decrements
          have hpN : 2 ≤ s.sys_period := by omega
          have hp0 : udec1 s.sys_period ≠ 0 := by
            unfold udec1
            split_ifs with h0 <;> omega
          have htf : tickFired s = [] := by
            simp only [tickFired]
            rw [if_neg]
            intro hand
            exact hp0 hand.2
          have hstep : sysTick s = { s with sys_period := udec1 s.sys_period } := by
            simp only [sysTick]
            rw [if_pos harm]
            simp only [sys_timer_callback]
            rw [if_neg hp0]
          have hud : ((udec1 s.sys_period : Nat) : Int) = (s.sys_period : Int) - 1 := by
            unfold udec1
            split_ifs with h0 <;> omega
          have hinv' : ArmedInv (sysTick s) := by
            rw [hstep]
            refine ⟨harm, hidle, hslots, ?_, ?_, hdt30, hdtmin⟩
            · show (1 : Int) ≤ ((udec1 s.sys_period : Nat) : Int)
              rw [hud]
              omega
            · show ((udec1 s.sys_period : Nat) : Int) ≤ s.sys_timeout_dt
              rw [hud]
              omega
          have hfi' : ((sysTick s).sys_timeouts k).timeout - (sysTick s).sys_timeout_dt +
              ((sysTick s).sys_period : Int) = (n : Int) := by
            rw [hstep]
            show (s.sys_timeouts k).timeout - s.sys_timeout_dt +
              ((udec1 s.sys_period : Nat) : Int) = (n : Int)
            rw [hud]
            omega
          have hnext := ih (sysTick s) k h c id hinv' (by rw [hstep]; exact hh)
            (by rw [hstep]; exact hc) (by rw [hstep]; exact hid) hfi' m
          rw [htf]
          exact Iff.trans (or_iff_right (List.not_mem_nil _)) (Iff.trans hnext (by omega))

/-- Over `n` tick opportunities, given room throughout, the queue receives
exactly the fired entries, appended in firing order. -/
theorem runTicks_absQueue (n : Nat) (s : SysState H C) (hq : QRange s)
    (hspace : sys_queue_len s + ((ticksFired s n).length : Int) ≤ 31) :
    absQueue (runTicks n s) = absQueue s ++ ticksFired s n ∧
    sys_queue_len (runTicks n s) = sys_queue_len s + ((ticksFired s n).length : Int) := by
  induction n generalizing s with
  | zero =>
    simp only [runTicks, ticksFired, List.append_nil, List.length_nil, Nat.cast_zero,
      add_zero]
    constructor <;> trivial
  | succ n ih =>
    have hticks : ticksFired s (n + 1) = tickFired s ++ ticksFired (sysTick s) n := rfl
    rw [hticks, List.length_append] at hspace
    push_cast at hspace
    have h1 := sysTick_absQueue s hq (by omega)
    have h2 := ih (sysTick s) (sysTick_qrange s hq) (by rw [h1.2]; omega)
    constructor
    · show absQueue (runTicks n (sysTick s)) = _
      rw [h2.1, h1.1, hticks, List.append_assoc]
    · show sys_queue_len (runTicks n (sysTick s)) = _
      rw [h2.2, h1.2, hticks, List.length_append]
      push_cast
      ring

/-- C2: bounded expiry jitter.  A successful `timer_add(d, h, c)` (sane
delay, sane engine, positive returned id) has its deferred call `h(c, id)`
pushed by the tick engine exactly at the `d`-th tick after the add: over
any `n` ticks the entry is among the pushed entries iff `d ≤ n` — so it is
pushed no earlier than `d` ticks (= `d` ms of tick period 1 ms) after the
add and within one tick period of `d` elapsing.  Given room in the call
queue the entry is then really pending after `n ≥ d` ticks. -/
theorem C2_bounded_expiry (s s1 : SysState H C) (d : Int) (h : H) (c : Option C)
    (id : Int) (hpre : PreInv s) (hq : QRange s)
    (hd1 : 1 ≤ d) (hd2 : d ≤ 1073741824)
    (hadd : sys_timeout_add d h c s = (id, s1)) (hid : 0 < id) :
    ∀ n : Nat,
      ((⟨some h, c, id, 0⟩ : SysEvent H C) ∈ ticksFired s1 n ↔ d ≤ (n : Int)) ∧
      (sys_queue_len s1 + ((ticksFired s1 n).length : Int) ≤ 31 → d ≤ (n : Int) →
        (⟨some h, c, id, 0⟩ : SysEvent H C) ∈ absQueue (runTicks n s1)) := by
  obtain ⟨k, hinv, hhk, hck, hidk, hfi⟩ :=
    sys_timeout_add_armed s s1 d h c id hpre hd1 hd2 hadd hid
  have hq1 : QRange s1 := by
    have hq2 := sys_timeout_add_qrange d h c s hq
    rw [hadd] at hq2
    exact hq2
  have hfire := fire_time d.toNat s1 k h c id hinv hhk hck hidk (by rw [hfi]; omega)
  intro n
  have hiff : (⟨some h, c, id, 0⟩ : SysEvent H C) ∈ ticksFired s1 n ↔ d ≤ (n : Int) :=
    Iff.trans (hfire n) (by omega)
  refine ⟨hiff, fun hsp hdn => ?_⟩
  rw [(runTicks_absQueue n s1 hq1 hsp).1]
  exact List.mem_append_right _ (hiff.mpr hdn)

/-- Witness for C2: a 2 ms timer added to the freshly initialised engine
(id 16, slot 0) fires exactly at the second tick. -/
theorem C2_witness :
    ((⟨some 7, none, 16, 0⟩ : SysEvent Nat Nat) ∈
        ticksFired (sys_timeout_add 2 7 none (initState (H := Nat) (C := Nat))).2 2 ↔
      (2 : Int) ≤ ((2 : Nat) : Int)) ∧
    (sys_queue_len (sys_timeout_add 2 7 none (initState (H := Nat) (C := Nat))).2 +
        ((ticksFired (sys_timeout_add 2 7 none
          (initState (H := Nat) (C := Nat))).2 2).length : Int) ≤ 31 →
      (2 : Int) ≤ ((2 : Nat) : Int) →
      (⟨some 7, none, 16, 0⟩ : SysEvent Nat Nat) ∈
        absQueue (runTicks 2 (sys_timeout_add 2 7 none
          (initState (H := Nat) (C := Nat))).2)) :=
  C2_bounded_expiry initState (sys_timeout_add 2 7 none initState).2 2 7 none 16
    (by unfold PreInv ArmedInv SlotsOk; decide) (by unfold QRange; decide)
    (by norm_num) (by norm_num) rfl (by norm_num) 2

end Sys
